import Mathlib

/-!
Verification of the export/report-rendering pipeline of the HGAD
supplier-database dashboard (`streamlit-db-app/src/app.py` and
`streamlit-db-app/src/utils/data_helpers.py`).

The Python source is shallowly embedded: DataFrames become a `Frame` of
ordered column names and rows of `Value` cells; floats become `ℚ`;
fallible operations return `Option`.  Each definition mirrors one Python
function and keeps its name where Lean allows it.
-/

set_option maxRecDepth 4000

namespace HGAD

/-- A cell value of a tabular result: missing (`NaN`/`None`), a float
(modelled as `ℚ`), a string, or a datetime (carrying its nanosecond
timestamp, as produced by `pd.to_numeric` on datetimes, together with its
display string). -/
inductive Value where
  | null : Value
  | num (q : ℚ) : Value
  | str (s : String) : Value
  | date (t : ℤ) (repr : String) : Value
deriving DecidableEq, Repr

/-- `pd.isna` on a cell. -/
def Value.isna : Value → Bool
  | .null => true
  | _ => false

/-- Digit character for `n < 10`. -/
def digitChar (n : ℕ) : Char := Char.ofNat (48 + n)

/-- Decimal digits of a natural number (fuel-indexed helper). -/
def natDigitsAux : ℕ → ℕ → List Char
  | 0, _ => []
  | fuel + 1, n => if n < 10 then [digitChar n] else natDigitsAux fuel (n / 10) ++ [digitChar (n % 10)]

/-- Decimal rendering of a natural number. -/
def natStr (n : ℕ) : String := ⟨natDigitsAux (n + 1) n⟩

/-- Decimal rendering of an integer. -/
def intStr (n : ℤ) : String := (if n < 0 then "-" else "") ++ natStr n.natAbs

/-- Digits of the fractional expansion of `n / d` (stops at remainder 0,
bounded by fuel).  Models the decimal digits Python prints for a float's
fractional part. -/
def fracDigits : ℕ → ℕ → ℕ → List Char
  | 0, _, _ => []
  | fuel + 1, n, d =>
    if n = 0 then []
    else digitChar (n * 10 / d) :: fracDigits fuel (n * 10 % d) d

/-- Python `str()`/`repr()` of a float, modelled on `ℚ`: integral values
render with a trailing `.0`, others as sign, integer part, and the decimal
expansion of the fractional part.  (The shortest-roundtrip behaviour of
binary floats is modelled as exact decimal printing.) -/
def floatRepr (q : ℚ) : String :=
  if q.den = 1 then intStr q.num ++ ".0"
  else
    (if q < 0 then "-" else "") ++ natStr (q.num.natAbs / q.den) ++ "." ++
      ⟨fracDigits 40 (q.num.natAbs % q.den) q.den⟩

/-- Python `str()` of a cell (`str(val)` in the source; missing values are
guarded by `pd.isna` checks before `str` is applied, `astype(str)` renders
them as `"nan"`). -/
def pyStr : Value → String
  | .null => "nan"
  | .num q => floatRepr q
  | .str s => s
  | .date _ r => r

/-- Substring test: Python `sub in s`. -/
def strContains (s sub : String) : Bool := decide (sub.data <:+: s.data)

/-- Python `s.startswith(p)`. -/
def strStartsWith (s p : String) : Bool := p.data.isPrefixOf s.data

/-- Python `str.lower()` (ASCII case mapping; Arabic letters have no case). -/
def pyLower (s : String) : String := ⟨s.data.map Char.toLower⟩

/-- Python whitespace recognised by `str.strip()` (ASCII fragment). -/
def isPySpace (c : Char) : Bool :=
  c = ' ' || c = '\t' || c = '\n' || c = '\r' || c = '\x0b' || c = '\x0c'

/-- Python `str.strip()` on a character list. -/
def pyStripChars (l : List Char) : List Char :=
  ((l.dropWhile isPySpace).reverse.dropWhile isPySpace).reverse

/-- Python `str.strip()`. -/
def pyStrip (s : String) : String := ⟨pyStripChars s.data⟩

/-- Python `s.replace(",", "")`. -/
def stripCommas (s : String) : String := ⟨s.data.filter (fun c => !(c = ','))⟩

/-- Python `s.rstrip(t)` for a single strip character. -/
def rstripChar (t : Char) (s : String) : String :=
  ⟨(s.data.reverse.dropWhile (fun c => c = t)).reverse⟩

/-- Python `s.endswith("%")`. -/
def endsPct (s : String) : Bool := s.data.getLast? = some '%'

/-! ## Numeric coercion (`float(...)` / `pd.to_numeric`) -/

/-- Value of a digit list read in base 10. -/
def digitsToNat (l : List Char) : ℕ := l.foldl (fun a c => 10 * a + (c.toNat - 48)) 0

/-- Parse an unsigned decimal literal (`digits`, `digits.digits`, `.digits`
or `digits.`): the decimal-literal fragment of Python `float()` accepted by
the data this pipeline handles. -/
def parseUnsigned (l : List Char) : Option ℚ :=
  match l.span Char.isDigit with
  | (ip, []) => if ip = [] then none else some (digitsToNat ip)
  | (ip, c :: rest) =>
    if c = '.' then
      match rest.span Char.isDigit with
      | (fp, []) =>
        if ip = [] ∧ fp = [] then none
        else some ((digitsToNat ip : ℚ) + (digitsToNat fp : ℚ) / (10 : ℚ) ^ fp.length)
      | _ => none
    else none

/-- Python `float(s)` on a string, modelled on its decimal-literal fragment
(`float` itself strips surrounding whitespace). -/
def pyFloat? (s : String) : Option ℚ :=
  match pyStripChars s.data with
  | '+' :: rest => parseUnsigned rest
  | '-' :: rest => (parseUnsigned rest).map Neg.neg
  | rest => parseUnsigned rest

/-- `pd.to_numeric(·, errors="coerce")` on one cell: floats pass through,
strings are parsed as decimals (`NaN` on failure), missing stays missing,
datetimes become their nanosecond timestamps. -/
def toNumeric? : Value → Option ℚ
  | .null => none
  | .num q => some q
  | .str s => pyFloat? s
  | .date t _ => some (t : ℚ)

/-! ## The tabular result -/

/-- A tabular result: ordered column names and rows of cells
(a shallow model of the `pandas.DataFrame` handed to the renderers). -/
structure Frame where
  cols : List String
  rows : List (List Value)
deriving DecidableEq, Repr

/-- The values of column `j` (missing cells read as null). -/
def Frame.colVals (f : Frame) (j : ℕ) : List Value :=
  f.rows.map (fun r => r.getD j .null)

/-- `pd.api.types.is_datetime64_any_dtype` for a column, derived from its
values: some datetime present and nothing but datetimes/missing. -/
def isDatetimeDtype (vals : List Value) : Bool :=
  vals.any (fun v => match v with | .date _ _ => true | _ => false) &&
    vals.all (fun v => match v with | .date _ _ => true | .null => true | _ => false)

/-- `pd.api.types.is_numeric_dtype` for a column, derived from its values:
some float present and nothing but floats/missing. -/
def isNumericDtype (vals : List Value) : Bool :=
  vals.any (fun v => match v with | .num _ => true | _ => false) &&
    vals.all (fun v => match v with | .num _ => true | .null => true | _ => false)

/-! ## `safe_filename` (`utils/data_helpers.py`) -/

/-- Substitute character `a` by `b` on one character. -/
def rep (a b : Char) (c : Char) : Char := if c = a then b else c

/-- Replace every occurrence of character `a` by `b`
(Python `str.replace` with single-character arguments). -/
def replaceChar (a b : Char) (s : String) : String := ⟨s.data.map (rep a b)⟩

theorem str_data_mk (l : List Char) : (⟨l⟩ : String).data = l := rfl

/-- An apostrophe character (the replacement Python writes for `"`). -/
def squote : Char := Char.ofNat 39

/-- `safe_filename`: the chain of single-character replacements from
`data_helpers.py`, innermost (`/`) first. -/
def safe_filename (s : String) : String :=
  replaceChar '|' '-'
    (replaceChar '>' ')'
      (replaceChar '<' '('
        (replaceChar '"' squote
          (replaceChar '?' '-'
            (replaceChar '*' '-'
              (replaceChar ':' '-'
                (replaceChar '\\' '-'
                  (replaceChar '/' '-' s))))))))

/-- The per-character substitution `safe_filename` performs. -/
def sfChar (c : Char) : Char :=
  if c = '/' then '-'
  else if c = '\\' then '-'
  else if c = ':' then '-'
  else if c = '*' then '-'
  else if c = '?' then '-'
  else if c = '"' then squote
  else if c = '<' then '('
  else if c = '>' then ')'
  else if c = '|' then '-'
  else c

/-- The filesystem-unsafe characters named by the specification. -/
def unsafeChars : List Char := ['/', '\\', ':', '*', '?', '"', '<', '>', '|']

theorem safe_filename_eq_map (s : String) :
    (safe_filename s).data = s.data.map sfChar := by
  simp only [safe_filename, replaceChar, str_data_mk, List.map_map]
  refine List.map_congr_left (fun c _ => ?_)
  simp only [Function.comp_apply]
  by_cases h1 : c = '/'
  · subst h1; rfl
  by_cases h2 : c = '\\'
  · subst h2; rfl
  by_cases h3 : c = ':'
  · subst h3; rfl
  by_cases h4 : c = '*'
  · subst h4; rfl
  by_cases h5 : c = '?'
  · subst h5; rfl
  by_cases h6 : c = '"'
  · subst h6; rfl
  by_cases h7 : c = '<'
  · subst h7; rfl
  by_cases h8 : c = '>'
  · subst h8; rfl
  by_cases h9 : c = '|'
  · subst h9; rfl
  simp only [rep, sfChar, h1, h2, h3, h4, h5, h6, h7, h8, h9, if_false]

theorem sfChar_not_unsafe (c : Char) : sfChar c ∉ unsafeChars := by
  unfold sfChar unsafeChars
  split_ifs <;> simp_all <;> decide

/-- C8: `safe_filename` returns a string with none of the filesystem-unsafe
characters `/ \ : * ? " < > |`; every character is mapped through the
substitution `sfChar` (so each unsafe occurrence is replaced by its safe
equivalent, in place), and characters outside the unsafe set are preserved,
keeping the original order. -/
theorem safe_filename_spec (s : String) :
    (∀ c ∈ (safe_filename s).data, c ∉ unsafeChars) ∧
    (safe_filename s).data = s.data.map sfChar ∧
    (∀ c : Char, c ∉ unsafeChars → sfChar c = c) ∧
    sfChar '/' = '-' ∧ sfChar '\\' = '-' ∧ sfChar ':' = '-' ∧ sfChar '*' = '-' ∧
    sfChar '?' = '-' ∧ sfChar '"' = squote ∧ sfChar '<' = '(' ∧ sfChar '>' = ')' ∧
    sfChar '|' = '-' := by
  refine ⟨?_, safe_filename_eq_map s, ?_, rfl, rfl, rfl, rfl, rfl, rfl, rfl, rfl, rfl⟩
  · intro c hc
    rw [safe_filename_eq_map] at hc
    obtain ⟨a, _, rfl⟩ := List.mem_map.mp hc
    exact sfChar_not_unsafe a
  · intro c h
    unfold sfChar
    split_ifs with h1 h2 h3 h4 h5 h6 h7 h8 h9 <;> simp_all [unsafeChars]

/-- Witness for C8 at the concrete input `"a/b:c"`. -/
theorem safe_filename_spec_witness :
    '/' ∉ (safe_filename "a/b:c").data ∧ sfChar 'x' = 'x' :=
  ⟨fun h => ((safe_filename_spec "a/b:c").1 '/' h) (by decide),
   (safe_filename_spec "a/b:c").2.2.1 'x' (by decide)⟩

/-! ## The delimited (CSV) renderer (`make_csv_utf8`)

`df.to_csv(index=False)` writes one record per line, comma-separated, each
record terminated by a newline.  A cell is quoted (minimal quoting) exactly
when it contains the delimiter, the quote character, or a line break;
quotes inside a quoted cell are doubled.  The resulting text is encoded as
UTF-8 behind a byte-order mark (`encoding="utf-8-sig"`). -/

/-- Does a cell need quoting under minimal quoting? -/
def needsQuote (l : List Char) : Bool :=
  l.any (fun c => c = ',' || c = '"' || c = '\n' || c = '\r')

/-- Double each quote character (CSV escaping inside a quoted cell). -/
def escQuotes : List Char → List Char
  | [] => []
  | c :: cs => if c = '"' then '"' :: '"' :: escQuotes cs else c :: escQuotes cs

/-- Encode one CSV cell. -/
def encCell (l : List Char) : List Char :=
  if needsQuote l then '"' :: (escQuotes l ++ ['"']) else l

/-- Encode one CSV record: comma-separated cells, newline-terminated. -/
def encRow : List (List Char) → List Char
  | [] => ['\n']
  | cell :: cells =>
    encCell cell ++ (match cells with
      | [] => ['\n']
      | _ :: _ => ',' :: encRow cells)

/-- Encode a full CSV table (header row first). -/
def encRows : List (List (List Char)) → List Char
  | [] => []
  | r :: rs => encRow r ++ encRows rs

/-- Parse the body of a quoted cell, after its opening quote; returns the
cell and the input following the closing quote. -/
def parseQuoted : List Char → Option (List Char × List Char)
  | [] => none
  | c :: cs =>
    if c = '"' then
      match cs with
      | [] => some ([], [])
      | d :: ds =>
        if d = '"' then (parseQuoted ds).map (fun p => ('"' :: p.1, p.2))
        else some ([], cs)
    else (parseQuoted cs).map (fun p => (c :: p.1, p.2))

/-- Parse an unquoted cell: everything up to the next comma or newline. -/
def parseUnquoted : List Char → List Char × List Char
  | [] => ([], [])
  | c :: cs =>
    if c = ',' || c = '\n' then ([], c :: cs)
    else (c :: (parseUnquoted cs).1, (parseUnquoted cs).2)

/-- Parse one CSV cell. -/
def parseCell : List Char → Option (List Char × List Char)
  | [] => some ([], [])
  | c :: cs => if c = '"' then parseQuoted cs else some (parseUnquoted (c :: cs))

/-- Parse one newline-terminated CSV record (fuel bounds the cell count). -/
def parseRecAux : ℕ → List Char → Option (List (List Char) × List Char)
  | 0, _ => none
  | fuel + 1, cs =>
    match parseCell cs with
    | none => none
    | some (cell, rest) =>
      match rest with
      | ',' :: rs => (parseRecAux fuel rs).map (fun p => (cell :: p.1, p.2))
      | '\n' :: rs => some ([cell], rs)
      | _ => none

/-- Parse a sequence of CSV records until the input is exhausted. -/
def parseRowsAux : ℕ → List Char → Option (List (List (List Char)))
  | _, [] => some []
  | 0, _ :: _ => none
  | fuel + 1, c :: cs =>
    match parseRecAux (c :: cs).length (c :: cs) with
    | none => none
    | some (row, rest) => (parseRowsAux fuel rest).map (fun rows => row :: rows)

/-- Parse delimited text into its records of cell strings. -/
def parseCSV (l : List Char) : Option (List (List (List Char))) :=
  parseRowsAux l.length l

theorem parseQuoted_quote_nil : parseQuoted ['"'] = some ([], []) := rfl

theorem parseQuoted_quote_cons (d : Char) (ds : List Char) :
    parseQuoted ('"' :: d :: ds) =
      if d = '"' then (parseQuoted ds).map (fun p => ('"' :: p.1, p.2))
      else some ([], d :: ds) := rfl

theorem parseQuoted_cons (c : Char) (cs : List Char) (h : ¬ c = '"') :
    parseQuoted (c :: cs) = (parseQuoted cs).map (fun p => (c :: p.1, p.2)) := by
  cases cs <;> simp [parseQuoted, h]

theorem parseQuoted_esc (cell : List Char) :
    ∀ rest : List Char, rest.head? ≠ some '"' →
      parseQuoted (escQuotes cell ++ '"' :: rest) = some (cell, rest) := by
  induction cell with
  | nil =>
    intro rest h
    cases rest with
    | nil => exact parseQuoted_quote_nil
    | cons d ds =>
      have hd : ¬ d = '"' := by simpa using h
      simp only [escQuotes, List.nil_append, parseQuoted_quote_cons, hd, if_false]
  | cons c cs ih =>
    intro rest h
    by_cases hc : c = '"'
    · subst hc
      have : escQuotes ('"' :: cs) ++ '"' :: rest =
          '"' :: '"' :: (escQuotes cs ++ '"' :: rest) := by
        simp [escQuotes]
      rw [this, parseQuoted_quote_cons, if_pos rfl, ih rest h]
      rfl
    · have : escQuotes (c :: cs) ++ '"' :: rest =
          c :: (escQuotes cs ++ '"' :: rest) := by
        simp [escQuotes, hc]
      rw [this, parseQuoted_cons c _ hc, ih rest h]
      rfl

theorem parseUnquoted_append (cell : List Char)
    (hcell : ∀ c ∈ cell, (c = ',' || c = '\n') = false) :
    ∀ rest : List Char,
      (rest = [] ∨ rest.head? = some ',' ∨ rest.head? = some '\n') →
      parseUnquoted (cell ++ rest) = (cell, rest) := by
  induction cell with
  | nil =>
    intro rest h
    rcases h with rfl | h | h
    · rfl
    · cases rest with
      | nil => simp at h
      | cons d ds =>
        have hd : d = ',' := by simpa using h
        subst hd
        simp [parseUnquoted]
    · cases rest with
      | nil => simp at h
      | cons d ds =>
        have hd : d = '\n' := by simpa using h
        subst hd
        simp [parseUnquoted]
  | cons c cs ih =>
    intro rest h
    have hc : (c = ',' || c = '\n') = false := hcell c (List.mem_cons_self c cs)
    have htail := ih (fun d hd => hcell d (List.mem_cons_of_mem c hd)) rest h
    simp [parseUnquoted, hc, htail]

theorem parseCell_cons (c : Char) (cs : List Char) :
    parseCell (c :: cs) =
      if c = '"' then parseQuoted cs else some (parseUnquoted (c :: cs)) := rfl

theorem parseCell_enc (cell : List Char) (rest : List Char)
    (h : rest = [] ∨ rest.head? = some ',' ∨ rest.head? = some '\n') :
    parseCell (encCell cell ++ rest) = some (cell, rest) := by
  by_cases hq : needsQuote cell = true
  · have hne : rest.head? ≠ some '"' := by
      rcases h with rfl | h | h
      · simp
      · simp [h]
      · simp [h]
    have hshape : encCell cell ++ rest = '"' :: (escQuotes cell ++ '"' :: rest) := by
      simp [encCell, hq]
    rw [hshape, parseCell_cons, if_pos rfl, parseQuoted_esc cell rest hne]
  · have hnochar : ∀ c ∈ cell, (c = ',' || c = '"' || c = '\n' || c = '\r') = false := by
      intro c hc
      have := (List.any_eq_false).mp (Bool.not_eq_true _ ▸ hq) c hc
      simpa using this
    have hshape : encCell cell ++ rest = cell ++ rest := by simp [encCell, hq]
    rw [hshape]
    cases cell with
    | nil =>
      rcases h with rfl | h | h
      · rfl
      · cases rest with
        | nil => simp at h
        | cons d ds =>
          have hd : d = ',' := by simpa using h
          subst hd
          simp [parseCell_cons, parseUnquoted]
      · cases rest with
        | nil => simp at h
        | cons d ds =>
          have hd : d = '\n' := by simpa using h
          subst hd
          simp [parseCell_cons, parseUnquoted]
    | cons e es =>
      have he : (e = ',' || e = '"' || e = '\n' || e = '\r') = false :=
        hnochar e (List.mem_cons_self e es)
      have he2 : ¬ e = '"' := by
        intro hcontra
        simp [hcontra] at he
      have hcells : ∀ c ∈ e :: es, (c = ',' || c = '\n') = false := by
        intro c hc
        have := hnochar c hc
        rcases Bool.or_eq_false_iff.mp this with ⟨h1, _⟩
        rcases Bool.or_eq_false_iff.mp h1 with ⟨h2, _⟩
        rcases Bool.or_eq_false_iff.mp h2 with ⟨h3, _⟩
        simp only [Bool.or_eq_false_iff]
        refine ⟨h3, ?_⟩
        rcases Bool.or_eq_false_iff.mp h1 with ⟨_, h4⟩
        exact h4
      have hpu := parseUnquoted_append (e :: es) hcells rest h
      rw [List.cons_append, parseCell_cons, if_neg he2, ← List.cons_append, hpu]

theorem encRow_cons₂ (cell c2 : List Char) (cs2 : List (List Char)) :
    encRow (cell :: c2 :: cs2) = encCell cell ++ ',' :: encRow (c2 :: cs2) := rfl

theorem encRow_length (row : List (List Char)) : row.length ≤ (encRow row).length := by
  induction row with
  | nil => simp [encRow]
  | cons cell cells ih =>
    cases cells with
    | nil => simp [encRow]
    | cons c2 cs2 =>
      rw [encRow_cons₂]
      simp only [List.length_cons, List.length_append]
      simp only [List.length_cons] at ih
      omega

theorem encRow_ne_nil (row : List (List Char)) : encRow row ≠ [] := by
  cases row with
  | nil => simp [encRow]
  | cons cell cells =>
    cases cells with
    | nil => simp [encRow]
    | cons c2 cs2 => simp [encRow]

theorem encRows_length (rows : List (List (List Char))) :
    rows.length ≤ (encRows rows).length := by
  induction rows with
  | nil => simp [encRows]
  | cons r rs ih =>
    have h1 := encRow_ne_nil r
    have h2 : 1 ≤ (encRow r).length := by
      cases hr : encRow r with
      | nil => exact absurd hr h1
      | cons a as => simp
    simp only [encRows, List.length_cons, List.length_append]
    omega

theorem parseRecAux_enc (row : List (List Char)) :
    ∀ (fuel : ℕ) (rest : List Char), row ≠ [] → row.length ≤ fuel →
      parseRecAux fuel (encRow row ++ rest) = some (row, rest) := by
  induction row with
  | nil => intro fuel rest h _; exact absurd rfl h
  | cons cell cells ih =>
    intro fuel rest _ hfuel
    cases fuel with
    | zero => simp at hfuel
    | succ f =>
      cases cells with
      | nil =>
        have hshape : encRow [cell] ++ rest = encCell cell ++ ('\n' :: rest) := by
          simp [encRow]
        rw [hshape]
        simp only [parseRecAux, parseCell_enc cell ('\n' :: rest) (Or.inr (Or.inr rfl))]
      | cons c2 cs2 =>
        have hshape : encRow (cell :: c2 :: cs2) ++ rest =
            encCell cell ++ (',' :: (encRow (c2 :: cs2) ++ rest)) := by
          simp [encRow]
        rw [hshape]
        have hrec := ih f rest (by simp) (by simpa using hfuel)
        simp only [parseRecAux,
          parseCell_enc cell (',' :: (encRow (c2 :: cs2) ++ rest)) (Or.inr (Or.inl rfl)),
          hrec]
        rfl

theorem parseRowsAux_cons (f : ℕ) (l : List Char) (h : l ≠ []) :
    parseRowsAux (f + 1) l =
      match parseRecAux l.length l with
      | none => none
      | some (row, rest) => (parseRowsAux f rest).map (fun rows => row :: rows) := by
  cases l with
  | nil => exact absurd rfl h
  | cons c cs => rfl

theorem parseRowsAux_enc (rows : List (List (List Char))) :
    ∀ fuel : ℕ, (∀ r ∈ rows, r ≠ []) → rows.length ≤ fuel →
      parseRowsAux fuel (encRows rows) = some rows := by
  induction rows with
  | nil => intro fuel _ _; simp [encRows, parseRowsAux]
  | cons r rs ih =>
    intro fuel hne hfuel
    cases fuel with
    | zero => simp at hfuel
    | succ f =>
      have hr : r ≠ [] := hne r (List.mem_cons_self r rs)
      have hlen : r.length ≤ (encRows (r :: rs)).length := by
        have h1 := encRow_length r
        simp only [encRows, List.length_append]
        omega
      have hmain : parseRecAux (encRows (r :: rs)).length (encRows (r :: rs)) =
          some (r, encRows rs) := by
        have : encRows (r :: rs) = encRow r ++ encRows rs := rfl
        rw [this]
        exact parseRecAux_enc r _ (encRows rs) hr (by rw [← this]; exact hlen)
      have hnn : encRows (r :: rs) ≠ [] := by
        have := encRow_ne_nil r
        simp only [encRows]
        intro hcontra
        rcases List.append_eq_nil.mp hcontra with ⟨h1, _⟩
        exact this h1
      rw [parseRowsAux_cons f _ hnn, hmain]
      show (parseRowsAux f (encRows rs)).map (fun rows => r :: rows) = some (r :: rs)
      rw [ih f (fun a ha => hne a (List.mem_cons_of_mem r ha)) (by simpa using hfuel)]
      rfl

/-- Round trip: parsing an encoded CSV table recovers every record,
provided every record has at least one cell. -/
theorem parseCSV_encRows (rows : List (List (List Char)))
    (hne : ∀ r ∈ rows, r ≠ []) :
    parseCSV (encRows rows) = some rows :=
  parseRowsAux_enc rows (encRows rows).length hne (encRows_length rows)

/-! ## UTF-8 encoding (`str.encode("utf-8-sig")`) -/

/-- UTF-8 bytes of one code point. -/
def utf8Char (n : ℕ) : List ℕ :=
  if n < 128 then [n]
  else if n < 2048 then [192 + n / 64, 128 + n % 64]
  else if n < 65536 then [224 + n / 4096, 128 + n / 64 % 64, 128 + n % 64]
  else [240 + n / 262144, 128 + n / 4096 % 64, 128 + n / 64 % 64, 128 + n % 64]

/-- UTF-8 bytes of a list of code points. -/
def utf8Enc : List ℕ → List ℕ
  | [] => []
  | n :: ns => utf8Char n ++ utf8Enc ns

/-- UTF-8 bytes of text. -/
def utf8Bytes (l : List Char) : List ℕ := utf8Enc (l.map Char.toNat)

/-- The UTF-8 byte-order mark Python prepends for `utf-8-sig`. -/
def bomBytes : List ℕ := [239, 187, 191]

/-- Consume `k` UTF-8 continuation bytes, folding their payloads onto an
accumulator. -/
def takeCont : ℕ → ℕ → List ℕ → Option (ℕ × List ℕ)
  | 0, acc, l => some (acc, l)
  | _ + 1, _, [] => none
  | k + 1, acc, b :: bs =>
    if 128 ≤ b && b < 192 then takeCont k (acc * 64 + (b - 128)) bs else none

/-- Decode UTF-8 bytes back into code points (fuel bounds the character
count; `none` on malformed input). -/
def utf8DecodeAux : ℕ → List ℕ → Option (List ℕ)
  | _, [] => some []
  | 0, _ :: _ => none
  | fuel + 1, b :: bs =>
    if b < 128 then (utf8DecodeAux fuel bs).map (fun l => b :: l)
    else if b < 192 then none
    else if b < 224 then
      match takeCont 1 (b - 192) bs with
      | none => none
      | some (v, rest) => (utf8DecodeAux fuel rest).map (fun l => v :: l)
    else if b < 240 then
      match takeCont 2 (b - 224) bs with
      | none => none
      | some (v, rest) => (utf8DecodeAux fuel rest).map (fun l => v :: l)
    else
      match takeCont 3 (b - 240) bs with
      | none => none
      | some (v, rest) => (utf8DecodeAux fuel rest).map (fun l => v :: l)

/-- Decode a UTF-8 byte sequence into code points. -/
def utf8Decode (l : List ℕ) : Option (List ℕ) := utf8DecodeAux l.length l

theorem utf8Char_length_pos (n : ℕ) : 1 ≤ (utf8Char n).length := by
  unfold utf8Char
  split_ifs <;> simp

theorem utf8Enc_length (l : List ℕ) : l.length ≤ (utf8Enc l).length := by
  induction l with
  | nil => simp [utf8Enc]
  | cons n ns ih =>
    have := utf8Char_length_pos n
    simp only [utf8Enc, List.length_cons, List.length_append]
    omega

theorem utf8DecodeAux_cons (fuel : ℕ) (b : ℕ) (bs : List ℕ) :
    utf8DecodeAux (fuel + 1) (b :: bs) =
      if b < 128 then (utf8DecodeAux fuel bs).map (fun l => b :: l)
      else if b < 192 then none
      else if b < 224 then
        match takeCont 1 (b - 192) bs with
        | none => none
        | some (v, rest) => (utf8DecodeAux fuel rest).map (fun l => v :: l)
      else if b < 240 then
        match takeCont 2 (b - 224) bs with
        | none => none
        | some (v, rest) => (utf8DecodeAux fuel rest).map (fun l => v :: l)
      else
        match takeCont 3 (b - 240) bs with
        | none => none
        | some (v, rest) => (utf8DecodeAux fuel rest).map (fun l => v :: l) := rfl

theorem takeCont_step (k acc b : ℕ) (bs : List ℕ) (h1 : 128 ≤ b) (h2 : b < 192) :
    takeCont (k + 1) acc (b :: bs) = takeCont k (acc * 64 + (b - 128)) bs := by
  simp [takeCont, h1, h2]

/-- Decoding inverts encoding, one character at a time. -/
theorem utf8DecodeAux_enc (l : List ℕ) :
    ∀ fuel : ℕ, (∀ n ∈ l, n < 1114112) → l.length ≤ fuel →
      utf8DecodeAux fuel (utf8Enc l) = some l := by
  induction l with
  | nil =>
    intro fuel _ _
    simp [utf8Enc, utf8DecodeAux]
  | cons n ns ih =>
    intro fuel hbound hfuel
    cases fuel with
    | zero => simp at hfuel
    | succ f =>
      have hn : n < 1114112 := hbound n (List.mem_cons_self n ns)
      have htail := ih f (fun m hm => hbound m (List.mem_cons_of_mem n hm))
        (by simpa using hfuel)
      by_cases c1 : n < 128
      · have hshape : utf8Enc (n :: ns) = n :: utf8Enc ns := by
          simp [utf8Enc, utf8Char, c1]
        rw [hshape, utf8DecodeAux_cons, if_pos c1, htail]
        rfl
      · by_cases c2 : n < 2048
        · have hshape : utf8Enc (n :: ns) =
              (192 + n / 64) :: (128 + n % 64) :: utf8Enc ns := by
            simp [utf8Enc, utf8Char, c1, c2]
          have hb1 : ¬ 192 + n / 64 < 128 := by omega
          have hb2 : ¬ 192 + n / 64 < 192 := by omega
          have hb3 : 192 + n / 64 < 224 := by omega
          rw [hshape, utf8DecodeAux_cons, if_neg hb1, if_neg hb2, if_pos hb3,
            takeCont_step 0 _ _ _ (by omega) (by omega)]
          have hval : (192 + n / 64 - 192) * 64 + (128 + n % 64 - 128) = n := by omega
          rw [hval]
          simp only [takeCont, htail]
          rfl
        · by_cases c3 : n < 65536
          · have hshape : utf8Enc (n :: ns) =
                (224 + n / 4096) :: (128 + n / 64 % 64) :: (128 + n % 64) :: utf8Enc ns := by
              simp [utf8Enc, utf8Char, c1, c2, c3]
            have hb1 : ¬ 224 + n / 4096 < 128 := by omega
            have hb2 : ¬ 224 + n / 4096 < 192 := by omega
            have hb3 : ¬ 224 + n / 4096 < 224 := by omega
            have hb4 : 224 + n / 4096 < 240 := by omega
            rw [hshape, utf8DecodeAux_cons, if_neg hb1, if_neg hb2, if_neg hb3, if_pos hb4,
              takeCont_step 1 _ _ _ (by omega) (by omega),
              takeCont_step 0 _ _ _ (by omega) (by omega)]
            have hval : ((224 + n / 4096 - 224) * 64 + (128 + n / 64 % 64 - 128)) * 64 +
                (128 + n % 64 - 128) = n := by omega
            rw [hval]
            simp only [takeCont, htail]
            rfl
          · have hshape : utf8Enc (n :: ns) =
                (240 + n / 262144) :: (128 + n / 4096 % 64) :: (128 + n / 64 % 64) ::
                  (128 + n % 64) :: utf8Enc ns := by
              simp [utf8Enc, utf8Char, c1, c2, c3]
            have hb1 : ¬ 240 + n / 262144 < 128 := by omega
            have hb2 : ¬ 240 + n / 262144 < 192 := by omega
            have hb3 : ¬ 240 + n / 262144 < 224 := by omega
            have hb4 : ¬ 240 + n / 262144 < 240 := by omega
            rw [hshape, utf8DecodeAux_cons, if_neg hb1, if_neg hb2, if_neg hb3, if_neg hb4,
              takeCont_step 2 _ _ _ (by omega) (by omega),
              takeCont_step 1 _ _ _ (by omega) (by omega),
              takeCont_step 0 _ _ _ (by omega) (by omega)]
            have hval : (((240 + n / 262144 - 240) * 64 + (128 + n / 4096 % 64 - 128)) * 64 +
                (128 + n / 64 % 64 - 128)) * 64 + (128 + n % 64 - 128) = n := by omega
            rw [hval]
            simp only [takeCont, htail]
            rfl

/-- Every Lean character is a Unicode scalar value below `0x110000`. -/
theorem char_toNat_lt (c : Char) : c.toNat < 1114112 := by
  have h := c.valid
  rcases h with h | ⟨_, h⟩
  · exact lt_trans h (by norm_num)
  · exact h

/-- Decoding the UTF-8 bytes of a text recovers its code points. -/
theorem utf8Decode_utf8Bytes (l : List Char) :
    utf8Decode (utf8Bytes l) = some (l.map Char.toNat) := by
  refine utf8DecodeAux_enc (l.map Char.toNat) (utf8Bytes l).length ?_ ?_
  · intro n hn
    obtain ⟨c, _, rfl⟩ := List.mem_map.mp hn
    exact char_toNat_lt c
  · have := utf8Enc_length (l.map Char.toNat)
    simpa [utf8Bytes] using this

/-- The text `df.to_csv` writes for one cell: the empty string for a
missing value, otherwise the cell's Python string form. -/
def csvCellStr (v : Value) : String := if v.isna then "" else pyStr v

/-- The grid of cell texts of a frame, as character lists. -/
def Frame.csvGrid (f : Frame) : List (List (List Char)) :=
  f.rows.map (fun r => r.map (fun v => (csvCellStr v).data))

/-- The delimited text `df.to_csv(index=False)` produces: the header
record followed by one record per row. -/
def Frame.csvChars (f : Frame) : List Char :=
  encRows (f.cols.map String.data :: f.csvGrid)

/-- `make_csv_utf8`: the CSV text encoded as UTF-8 behind a byte-order
mark (`encoding="utf-8-sig"`). -/
def make_csv_utf8 (f : Frame) : List ℕ :=
  bomBytes ++ utf8Bytes f.csvChars

/-- C5: the delimited export is a byte-order-mark-prefixed UTF-8 encoding
of the table; stripping the mark, decoding the UTF-8 bytes and parsing the
text as delimited data recovers exactly the header and the per-cell string
values of the table (round-trip law); and the renderer depends on nothing
but the column names and per-cell strings (no classification-dependent
formatting), hence is deterministic. -/
theorem csv_roundtrip (f : Frame) (hc : 0 < f.cols.length)
    (hr : ∀ r ∈ f.rows, r.length = f.cols.length) :
    make_csv_utf8 f = bomBytes ++ utf8Bytes f.csvChars ∧
    utf8Decode (utf8Bytes f.csvChars) = some (f.csvChars.map Char.toNat) ∧
    parseCSV f.csvChars = some (f.cols.map String.data :: f.csvGrid) ∧
    (∀ g : Frame, g.cols = f.cols → g.csvGrid = f.csvGrid →
      make_csv_utf8 g = make_csv_utf8 f) := by
  refine ⟨rfl, utf8Decode_utf8Bytes f.csvChars, ?_, ?_⟩
  · refine parseCSV_encRows _ ?_
    intro r hrm
    rcases List.mem_cons.mp hrm with rfl | hmem
    · intro hcontra
      have h0 : f.cols = [] := List.map_eq_nil.mp hcontra
      rw [h0] at hc
      simp at hc
    · obtain ⟨row, hrow, rfl⟩ := List.mem_map.mp hmem
      intro hcontra
      have h0 : row = [] := List.map_eq_nil.mp hcontra
      have hlen := hr row hrow
      rw [h0] at hlen
      simp at hlen
      omega
  · intro g hcols hgrid
    unfold make_csv_utf8 Frame.csvChars
    rw [hcols, hgrid]

/-- Witness for C5 at a concrete two-column table holding a comma-bearing
string and a float. -/
theorem csv_roundtrip_witness :
    parseCSV (Frame.csvChars (Frame.mk ["a", "b"] [[.str "x,y", .num (21/2)]])) =
      some ((Frame.mk ["a", "b"] [[Value.str "x,y", Value.num (21/2)]]).cols.map String.data ::
        (Frame.mk ["a", "b"] [[Value.str "x,y", Value.num (21/2)]]).csvGrid) :=
  (csv_roundtrip (Frame.mk ["a", "b"] [[.str "x,y", .num (21/2)]])
    (by decide) (by decide)).2.2.1

/-! ## Display number formatting (`utils/data_helpers.py`) -/

/-- Characters stripped by `_normalize_name`
(the `[\sـ‌‍‎‏]` class; ASCII whitespace
fragment of `\s`). -/
def normStripChars : List Char :=
  [' ', '\t', '\n', '\r', '\x0b', '\x0c',
   Char.ofNat 0x640, Char.ofNat 0x200c, Char.ofNat 0x200d,
   Char.ofNat 0x200e, Char.ofNat 0x200f]

/-- `_normalize_name`: drop whitespace, tatweel and directional marks from
a column name. -/
def normalize_name (s : String) : String :=
  ⟨s.data.filter (fun c => !(normStripChars.contains c))⟩

/-- Nearest integer to a rational, ties to even (the rounding used when
Python formats a value with `:.2f`; binary-float representation error is
not modelled). -/
def roundHalfEven (x : ℚ) : ℤ :=
  let fl := ⌊x⌋
  let r := x - (fl : ℚ)
  if r < 1 / 2 then fl
  else if 1 / 2 < r then fl + 1
  else if fl % 2 = 0 then fl else fl + 1

/-- Insert a comma after every group of three characters (input reversed
digit list). -/
def group3 : List Char → List Char
  | d1 :: d2 :: d3 :: d4 :: rest => d1 :: d2 :: d3 :: ',' :: group3 (d4 :: rest)
  | l => l

/-- Python `f"{x:,.2f}"`: thousands separators and two decimals. -/
def commaFmt (q : ℚ) : String :=
  let n := roundHalfEven (q * 100)
  let a := n.natAbs
  (if q < 0 then "-" else "") ++
    (⟨(group3 (natStr (a / 100)).data.reverse).reverse⟩ : String) ++ "." ++
    (if a % 100 < 10 then "0" ++ natStr (a % 100) else natStr (a % 100))

/-- `_plain_number_no_commas`: missing renders empty; otherwise commas are
removed, the text stripped and parsed as a float — integral floats render
with no decimal part, other floats with trailing zeros and dot stripped —
and on parse failure the original string form passes through. -/
def plain_number_no_commas (v : Value) : String :=
  if v.isna then ""
  else
    match pyFloat? (pyStrip (stripCommas (pyStr v))) with
    | some q =>
      if q.den = 1 then intStr q.num
      else if '.' ∈ (floatRepr q).data then rstripChar '.' (rstripChar '0' (floatRepr q))
      else floatRepr q
    | none => pyStr v

/-- The per-cell formatter for non-numeric columns inside
`format_numbers_for_display`: missing renders empty, percent-suffixed
text passes through, parseable numbers are comma-formatted with two
decimals, everything else passes through. -/
def fmt_cell (v : Value) : String :=
  if v.isna then ""
  else if endsPct (pyStrip (pyStr v)) = true then pyStr v
  else
    match pyFloat? (stripCommas (pyStr v)) with
    | some fv => commaFmt fv
    | none => pyStr v

/-- `format_value`: percent-suffixed strings pass through; values whose
string form parses as a float are comma-formatted; missing renders
empty; everything else passes through as its string form.
(For floats, Python reparses `str(v)` which is the identity; the model
applies the format directly.) -/
def format_value (v : Value) : String :=
  match v with
  | .str s =>
    if endsPct (pyStrip s) = true then s
    else
      match pyFloat? (stripCommas s) with
      | some fq => commaFmt fq
      | none => s
  | .num q => commaFmt q
  | .null => ""
  | .date _ r =>
    match pyFloat? (stripCommas r) with
    | some fq => commaFmt fq
    | none => r

/-- Does a column force plain (no-comma) rendering?  True when its
normalized name is requested by the caller, contains `شيك`, or contains
both `رقم` and `فاتورة`. -/
def force_plain (c : String) (no_comma_cols : List String) : Bool :=
  (no_comma_cols.map normalize_name).contains (normalize_name c) ||
    strContains (normalize_name c) "شيك" ||
    (strContains (normalize_name c) "رقم" && strContains (normalize_name c) "فاتورة")

/-- One column of `format_numbers_for_display`: forced-plain columns map
through `_plain_number_no_commas`; numeric-dtype columns format with
thousands separators and two decimals (missing renders empty); other
columns map through the per-cell formatter.  (The numeric-dtype branch
applies `float(x)` to a float cell; the non-float default is
unreachable for a numeric dtype.) -/
def formatColumn (c : String) (noComma : List String) (vals : List Value) : List String :=
  if force_plain c noComma then vals.map plain_number_no_commas
  else if isNumericDtype vals then
    vals.map (fun v => if v.isna then ""
      else commaFmt (match v with | .num q => q | _ => 0))
  else vals.map fmt_cell

/-- `format_numbers_for_display`, as the column-major grid of displayed
strings. -/
def format_numbers_for_display (f : Frame) (noComma : List String) : List (List String) :=
  (List.range f.cols.length).map
    (fun j => formatColumn (f.cols.getD j "") noComma (f.colVals j))

/-! ## The spreadsheet renderer (`_write_excel_table`, `make_excel_bytes`) -/

/-- The text `_write_excel_table` computes for a cell:
`"" if pd.isna(val) else str(val)`. -/
def sval (v : Value) : String := if v.isna then "" else pyStr v

/-- Is a cell rendered as a hyperlink?  True when its text starts with an
http/https scheme, or the column name contains the link marker `رابط` and
the text is non-empty. -/
def isUrlCell (colname s : String) : Bool :=
  strStartsWith s "http://" || strStartsWith s "https://" ||
    (strContains colname "رابط" && !(decide (s = "")))

/-- A written spreadsheet cell. -/
inductive XCell where
  | url (href label : String)
  | dateCell (t : ℤ)
  | num (q : ℚ)
  | str (s : String)
  | blank
deriving DecidableEq, Repr

/-- One body cell of `_write_excel_table`: hyperlink check first, then the
column's dtype decides datetime/number/text writing, with blanks for
missing values.  (A non-datetime value inside a datetime-dtype column, or
a non-float inside a numeric one, cannot arise from the dtype derivation;
the model writes the text fallback there.) -/
def excelBodyCell (colname : String) (dIsDate dIsNum : Bool) (v : Value) : XCell :=
  if isUrlCell colname (sval v) then .url (sval v) "فتح الرابط"
  else if dIsDate then
    if v.isna then .blank
    else match v with
      | .date t _ => .dateCell t
      | _ => .str (sval v)
  else if dIsNum then
    if v.isna then .blank
    else match v with
      | .num q => .num q
      | _ => .str (sval v)
  else .str (sval v)

/-- The totals-row exclusion keyword list of `_write_excel_table`. -/
def excludeKeywords : List String :=
  ["id", "رقم", "تاريخ", "date", "code", "كود", "بنك", "bank",
   "نوع", "type", "رابط", "مورد", "مواد"]

/-- Does a lower-cased column name contain an exclusion keyword? -/
def shouldExclude (colname : String) : Bool :=
  excludeKeywords.any (fun k => strContains (pyLower colname) k)

/-- Python `abs` on a rational. -/
def ratAbs (q : ℚ) : ℚ := if q < 0 then -q else q

/-- The totals-row cell for one (non-first) column: excluded columns get
an empty text cell; otherwise the values are numeric-coerced and, unless
all fail, summed (missing skipped), writing the sum when its absolute
value exceeds 0.001 and an empty text cell otherwise. -/
def totalsCell (colname : String) (vals : List Value) : XCell :=
  if shouldExclude colname then .str ""
  else
    if (vals.map toNumeric?).all (fun o => o.isNone) then .str ""
    else
      if 1 / 1000 < ratAbs ((vals.map toNumeric?).filterMap id).sum then
        .num ((vals.map toNumeric?).filterMap id).sum
      else .str ""

/-- The rows `_write_excel_table` writes: header, body, totals row and
count row. -/
structure XTable where
  header : List XCell
  body : List (List XCell)
  totals : List XCell
  countRow : List XCell
deriving DecidableEq, Repr

/-- `_write_excel_table` on a frame. -/
def writeExcelTable (f : Frame) : XTable :=
  { header := f.cols.map (fun c => XCell.str c)
    body := f.rows.map (fun r =>
      (List.range f.cols.length).map (fun j =>
        excelBodyCell (f.cols.getD j "") (isDatetimeDtype (f.colVals j))
          (isNumericDtype (f.colVals j)) (r.getD j .null)))
    totals :=
      if f.cols.isEmpty then []
      else
        XCell.str "المجموع" ::
          (List.range (f.cols.length - 1)).map
            (fun i => totalsCell (f.cols.getD (i + 1) "") (f.colVals (i + 1)))
    countRow :=
      if f.cols.isEmpty then []
      else
        XCell.str "عدد الصفوف" ::
          (if f.cols.length ≤ 1 then []
           else XCell.num (f.rows.length : ℚ) ::
             List.replicate (f.cols.length - 2) (XCell.str "")) }

/-- The abstract workbook `make_excel_bytes` produces: the styled
xlsxwriter layout, or the plain `df.to_excel` dump of the openpyxl
fallback. -/
inductive Workbook where
  | styled (sheetName titleLine : String) (tableStartRow : ℕ) (table : XTable)
  | plain (sheetName : String) (header : List String) (body : List (List Value))
deriving DecidableEq, Repr

/-- The worksheet name a workbook was created with. -/
def Workbook.sheetName : Workbook → String
  | .styled s _ _ _ => s
  | .plain s _ _ => s

/-- Which optional libraries and assets the runtime has. -/
structure Env where
  hasXlsxwriter : Bool
  hasOpenpyxl : Bool
  hasWideLogo : Bool
deriving DecidableEq, Repr

/-- `_pick_excel_engine`: xlsxwriter if importable, else openpyxl, else
none. -/
def pick_excel_engine (e : Env) : Option String :=
  if e.hasXlsxwriter then some "xlsxwriter"
  else if e.hasOpenpyxl then some "openpyxl"
  else none

/-- Python `s[:n]`. -/
def strTake (s : String) (n : ℕ) : String := ⟨s.data.take n⟩

/-- `make_excel_bytes`: `None` when no engine is available; with
xlsxwriter, the styled workbook under `(sheet_name or "Sheet1")[:31]`
(logo row only when requested and the wide-logo asset exists, then title
row and one blank row above the table); with openpyxl, the plain
`df.to_excel` dump under `sheet_name[:31]`. -/
def make_excel_bytes (e : Env) (f : Frame) (sheet_name title_line : String)
    (put_logo : Bool) : Option Workbook :=
  match pick_excel_engine e with
  | none => none
  | some engine =>
    if engine = "xlsxwriter" then
      some (.styled (strTake (if sheet_name = "" then "Sheet1" else sheet_name) 31)
        title_line ((if put_logo && e.hasWideLogo then 1 else 0) + 2) (writeExcelTable f))
    else
      some (.plain (strTake sheet_name 31) f.cols f.rows)

/-! ## The document (PDF) renderer (`_pdf_table`, `make_pdf_bytes`) -/

/-- Does text contain Arabic-range code points (`[؀-ۿ]`)? -/
def looksArabic (s : String) : Bool :=
  s.data.any (fun c => 1536 ≤ c.toNat && c.toNat ≤ 1791)

/-- Bidirectional reshaping (`get_display(arabic_reshaper.reshape(s))`),
an external glyph-level text transform modelled as the identity on the
abstract text. -/
def shape_arabic (s : String) : String := s

/-- A laid-out PDF table cell: a clickable link with a display label, or
shaped text with its direction. -/
inductive PCell where
  | link (href label : String)
  | text (s : String) (arabic : Bool)
deriving DecidableEq, Repr

/-- One body cell of `_pdf_table`: the hyperlink check (same condition as
the spreadsheet renderer), else shaped right-aligned text for Arabic and
plain left-aligned text otherwise. -/
def pdfCell (colname : String) (v : Value) : PCell :=
  if isUrlCell colname (sval v) then .link (sval v) (shape_arabic "فتح الرابط")
  else .text (if looksArabic (sval v) then shape_arabic (sval v) else sval v)
    (looksArabic (sval v))

/-- A header cell of `_pdf_table`. -/
def pdfHeaderCell (c : String) : PCell :=
  .text (if looksArabic c then shape_arabic c else c) (looksArabic c)

/-- The rows `_pdf_table` lays out: the header row then one row per data
row. -/
def pdfTableRows (f : Frame) : List (List PCell) :=
  (f.cols.map pdfHeaderCell) ::
    f.rows.map (fun r =>
      (List.range f.cols.length).map (fun j => pdfCell (f.cols.getD j "") (r.getD j .null)))

/-- `max_len` for one column: the longest string among the header and the
`astype(str)` cell renderings (0-row columns fall back to the header
length, as `max(len, nan)` does). -/
def pdfMaxLen (f : Frame) (j : ℕ) : ℕ :=
  max (f.cols.getD j "").length
    (((f.colVals j).map (fun v => (pyStr v).length)).foldr max 0)

/-- The estimated column widths of `_pdf_table`:
`min(max_len * 6.4, max_col_width)` per column. -/
def pdfEstWidths (f : Frame) (maxColWidth : ℚ) : List ℚ :=
  (List.range f.cols.length).map
    (fun j => min ((pdfMaxLen f j : ℚ) * (32 / 5)) maxColWidth)

/-- The uniform shrink of `_pdf_table`: when an available width is given
and the estimated total exceeds it, every width is multiplied by
`avail / total`. -/
def pdfScaleWidths (avail : Option ℚ) (ws : List ℚ) : List ℚ :=
  match avail with
  | none => ws
  | some a => if a < ws.sum then ws.map (fun w => w * (a / ws.sum)) else ws

/-- Width of a landscape A4 page in points. -/
def landscapeA4Width : ℚ := 106920 / 127

/-- The width available to the table in `make_pdf_bytes`
(page width minus the 14-point side margins). -/
def pdfAvailWidth : ℚ := landscapeA4Width - 28

/-- The column-count-dependent `(max_col_width, base_font)` tiers of
`make_pdf_bytes`. -/
def pdfTierParams (n : ℕ) : ℚ × ℚ :=
  if 12 ≤ n then (110, 7) else if 9 ≤ n then (125, 15 / 2) else (150, 8)

/-- The final column widths `make_pdf_bytes` hands to the table. -/
def make_pdf_colWidths (f : Frame) : List ℚ :=
  pdfScaleWidths (some pdfAvailWidth) (pdfEstWidths f (pdfTierParams f.cols.length).1)

/-! ## Claim theorems -/

/-- C2: `make_excel_bytes` returns the explicit absent value exactly when
neither spreadsheet engine (xlsxwriter, openpyxl) is importable; with an
engine available it returns a workbook payload. -/
theorem excel_engine_absent_iff_none (e : Env) (f : Frame) (sn t : String) (pl : Bool) :
    make_excel_bytes e f sn t pl = none ↔
      e.hasXlsxwriter = false ∧ e.hasOpenpyxl = false := by
  cases e with
  | mk x o w => cases x <;> cases o <;> simp [make_excel_bytes, pick_excel_engine]

theorem strTake_length (s : String) (n : ℕ) : (strTake s n).length ≤ n := by
  have : (strTake s n).length = (s.data.take n).length := rfl
  rw [this, List.length_take]
  omega

theorem strTake_ne_empty (s : String) (h : s ≠ "") : strTake s 31 ≠ "" := by
  intro hcontra
  apply h
  have hdata : s.data.take 31 = [] := congrArg String.data hcontra
  cases hs : s.data with
  | nil => exact String.ext hs
  | cons c cs =>
    rw [hs] at hdata
    simp [List.take] at hdata

/-- C10 (amended): every workbook `make_excel_bytes` creates has a sheet
name of at most 31 characters; under the xlsxwriter engine the name is
never empty and an empty (or `None`, which `or` treats alike) input is
replaced by `"Sheet1"` — the openpyxl fallback merely truncates, passing
an empty name through. -/
theorem sheet_name_truncation (e : Env) (f : Frame) (sn t : String) (pl : Bool)
    (wb : Workbook) (h : make_excel_bytes e f sn t pl = some wb) :
    wb.sheetName.length ≤ 31 ∧
    (e.hasXlsxwriter = true →
      wb.sheetName ≠ "" ∧ (sn = "" → wb.sheetName = "Sheet1")) := by
  cases e with
  | mk x o w =>
    cases x
    · cases o
      · simp [make_excel_bytes, pick_excel_engine] at h
      · have hwb : wb = .plain (strTake sn 31) f.cols f.rows := by
          simp [make_excel_bytes, pick_excel_engine] at h
          exact h.symm
        subst hwb
        refine ⟨strTake_length sn 31, ?_⟩
        intro hcontra
        simp at hcontra
    · have hwb : wb = .styled (strTake (if sn = "" then "Sheet1" else sn) 31) t
          ((if pl && w then 1 else 0) + 2) (writeExcelTable f) := by
        simp only [make_excel_bytes, pick_excel_engine, if_true, if_pos rfl] at h
        exact (Option.some.injEq _ _ ▸ h).symm
      subst hwb
      by_cases hsn : sn = ""
      · subst hsn
        refine ⟨?_, fun _ => ⟨?_, fun _ => ?_⟩⟩
        · simpa [Workbook.sheetName] using strTake_length "Sheet1" 31
        · show strTake "Sheet1" 31 ≠ ""
          decide
        · show strTake "Sheet1" 31 = "Sheet1"
          decide
      · refine ⟨by simpa [Workbook.sheetName, hsn] using strTake_length sn 31,
          fun _ => ⟨?_, fun hc => absurd hc hsn⟩⟩
        simpa [Workbook.sheetName, hsn] using strTake_ne_empty sn hsn

/-- Witness for C10 (amended), xlsxwriter engine with an empty sheet
name. -/
theorem sheet_name_truncation_witness :
    (Workbook.styled "Sheet1" "t" 2 (writeExcelTable (Frame.mk ["a"] []))).sheetName
        = "Sheet1" :=
  (sheet_name_truncation (Env.mk true false false) (Frame.mk ["a"] []) "" "t" false
    _ rfl).2 rfl |>.2 rfl

/-- Counterexample to C10 as stated: with only openpyxl available and an
empty sheet name supplied, the created workbook's sheet name is the empty
string — the default `"Sheet1"` is not substituted in the fallback
branch, so sheet creation does receive an empty name. -/
theorem openpyxl_empty_sheet_name_passthrough :
    (make_excel_bytes (Env.mk false true false) (Frame.mk ["a"] []) "" "t" true).map
      Workbook.sheetName = some "" := by
  rfl

theorem getD_map_of_lt {α β : Type} (l : List α) (g : α → β) (i : ℕ) (d : β) (d0 : α)
    (h : i < l.length) : (l.map g).getD i d = g (l.getD i d0) := by
  rw [List.getD_eq_getElem _ _ (by simpa using h), List.getElem_map,
    List.getD_eq_getElem _ _ h]

theorem getD_range_map {β : Type} (n : ℕ) (g : ℕ → β) (j : ℕ) (d : β) (h : j < n) :
    ((List.range n).map g).getD j d = g j := by
  rw [getD_map_of_lt _ _ _ _ 0 (by simpa using h)]
  congr 1
  rw [List.getD_eq_getElem _ _ (by simpa using h), List.getElem_range]

/-- C3: in both the spreadsheet and the PDF renderer, a cell whose text
starts with `http://` or `https://`, or that sits in a column whose name
contains the link marker `رابط` and has non-empty text, is written as a
clickable hyperlink labelled with the fixed caption `فتح الرابط` (not the
raw URL); concretely, in a column named `رابط الفاتورة` the value
`https://x/y` becomes a link while the empty value stays a plain text
cell, and the caption differs from that URL. -/
theorem url_cells_render_as_links (f : Frame) (i j : ℕ)
    (hi : i < f.rows.length) (hj : j < f.cols.length)
    (hcond : strStartsWith (sval ((f.rows.getD i []).getD j .null)) "http://" = true ∨
             strStartsWith (sval ((f.rows.getD i []).getD j .null)) "https://" = true ∨
             (strContains (f.cols.getD j "") "رابط" = true ∧
              sval ((f.rows.getD i []).getD j .null) ≠ "")) :
    ((writeExcelTable f).body.getD i []).getD j XCell.blank =
      XCell.url (sval ((f.rows.getD i []).getD j .null)) "فتح الرابط" ∧
    ((pdfTableRows f).getD (i + 1) []).getD j (PCell.text "" false) =
      PCell.link (sval ((f.rows.getD i []).getD j .null)) "فتح الرابط" ∧
    ((writeExcelTable (Frame.mk ["رابط الفاتورة"]
        [[.str "https://x/y"], [.str ""]])).body.getD 0 []).getD 0 XCell.blank =
      XCell.url "https://x/y" "فتح الرابط" ∧
    ((writeExcelTable (Frame.mk ["رابط الفاتورة"]
        [[.str "https://x/y"], [.str ""]])).body.getD 1 []).getD 0 XCell.blank =
      XCell.str "" ∧
    ("فتح الرابط" : String) ≠ "https://x/y" := by
  have hurl : isUrlCell (f.cols.getD j "") (sval ((f.rows.getD i []).getD j .null)) = true := by
    unfold isUrlCell
    rcases hcond with h | h | ⟨h1, h2⟩
    · rw [h, Bool.true_or, Bool.true_or]
    · rw [h, Bool.or_true, Bool.true_or]
    · rw [h1, decide_eq_false h2]
      rw [Bool.not_false, Bool.and_self, Bool.or_true]
  refine ⟨?_, ?_, by decide, by decide, by decide⟩
  · show ((f.rows.map (fun r =>
        (List.range f.cols.length).map (fun j =>
          excelBodyCell (f.cols.getD j "") (isDatetimeDtype (f.colVals j))
            (isNumericDtype (f.colVals j)) (r.getD j .null)))).getD i []).getD j XCell.blank = _
    rw [getD_map_of_lt _ _ _ _ [] hi, getD_range_map _ _ _ _ hj]
    unfold excelBodyCell
    rw [if_pos hurl]
  · show ((f.rows.map (fun r =>
        (List.range f.cols.length).map (fun j =>
          pdfCell (f.cols.getD j "") (r.getD j .null)))).getD i []).getD j
        (PCell.text "" false) = _
    rw [getD_map_of_lt _ _ _ _ [] hi, getD_range_map _ _ _ _ hj]
    unfold pdfCell
    rw [if_pos hurl]
    rfl

/-- Witness for C3 in the invoice-link column at the link-bearing row. -/
theorem url_cells_render_as_links_witness :
    ((writeExcelTable (Frame.mk ["رابط الفاتورة"]
        [[.str "https://x/y"], [.str ""]])).body.getD 0 []).getD 0 XCell.blank =
      XCell.url "https://x/y" "فتح الرابط" :=
  (url_cells_render_as_links (Frame.mk ["رابط الفاتورة"] [[.str "https://x/y"], [.str ""]])
    0 0 (by decide) (by decide) (Or.inr (Or.inl (by decide)))).1

theorem totals_headD_label (f : Frame) (hne : f.cols ≠ []) :
    (writeExcelTable f).totals.headD XCell.blank = XCell.str "المجموع" := by
  have hempty : f.cols.isEmpty = false := by
    cases h : f.cols with
    | nil => exact absurd h hne
    | cons a l => rfl
  show (if f.cols.isEmpty then [] else
      XCell.str "المجموع" ::
        (List.range (f.cols.length - 1)).map
          (fun i => totalsCell (f.cols.getD (i + 1) "") (f.colVals (i + 1)))).headD
      XCell.blank = _
  rw [if_neg (by rw [hempty]; exact Bool.false_ne_true)]
  rfl

theorem totals_getD (f : Frame) (j : ℕ) (hne : f.cols ≠ []) (hj : j + 1 < f.cols.length) :
    (writeExcelTable f).totals.getD (j + 1) XCell.blank =
      totalsCell (f.cols.getD (j + 1) "") (f.colVals (j + 1)) := by
  have hempty : f.cols.isEmpty = false := by
    cases h : f.cols with
    | nil => exact absurd h hne
    | cons a l => rfl
  show (if f.cols.isEmpty then [] else
      XCell.str "المجموع" ::
        (List.range (f.cols.length - 1)).map
          (fun i => totalsCell (f.cols.getD (i + 1) "") (f.colVals (i + 1)))).getD (j + 1)
      XCell.blank = _
  rw [if_neg (by rw [hempty]; exact Bool.false_ne_true), List.getD_cons_succ,
    getD_range_map _ _ _ _ (by omega)]

/-- C1: the totals row starts with the label cell `المجموع`; every later
column whose lower-cased name contains an exclusion keyword is written as
an empty text cell regardless of its values, and every other column has
its values numeric-coerced: if every coercion fails the cell is empty,
otherwise the coerced values are summed (missing skipped) and the sum is
written — with the two-decimal `#,##0.00` number format, so `30` displays
as `30.00` — exactly when its absolute value exceeds 0.001, the cell
staying empty otherwise.  Concretely `[10.0, 20.0, None]` totals to `30`,
a keyword-named column (`تاريخ الاستحقاق`) stays blank even with coercible
values, and an entirely non-coercible column stays blank. -/
theorem totals_row_spec (f : Frame) (hne : f.cols ≠ []) :
    (writeExcelTable f).totals.headD XCell.blank = XCell.str "المجموع" ∧
    (∀ j : ℕ, j + 1 < f.cols.length →
      (shouldExclude (f.cols.getD (j + 1) "") = true →
        (writeExcelTable f).totals.getD (j + 1) XCell.blank = XCell.str "") ∧
      (shouldExclude (f.cols.getD (j + 1) "") = false →
        (((f.colVals (j + 1)).map toNumeric?).all (fun o => o.isNone) = true →
          (writeExcelTable f).totals.getD (j + 1) XCell.blank = XCell.str "") ∧
        (((f.colVals (j + 1)).map toNumeric?).all (fun o => o.isNone) = false →
          (1 / 1000 < ratAbs (((f.colVals (j + 1)).map toNumeric?).filterMap id).sum →
            (writeExcelTable f).totals.getD (j + 1) XCell.blank =
              XCell.num (((f.colVals (j + 1)).map toNumeric?).filterMap id).sum) ∧
          (¬ 1 / 1000 < ratAbs (((f.colVals (j + 1)).map toNumeric?).filterMap id).sum →
            (writeExcelTable f).totals.getD (j + 1) XCell.blank = XCell.str "")))) ∧
    totalsCell "المبلغ" [Value.num 10, Value.num 20, Value.null] = XCell.num 30 ∧
    commaFmt 30 = "30.00" ∧
    totalsCell "تاريخ الاستحقاق" [Value.num 10, Value.num 20] = XCell.str "" ∧
    totalsCell "الوصف" [Value.str "abc", Value.null] = XCell.str "" := by
  have hempty : f.cols.isEmpty = false := by
    cases h : f.cols with
    | nil => exact absurd h hne
    | cons a l => rfl
  have hsum : (([Value.num 10, Value.num 20,
      Value.null].map toNumeric?).filterMap id).sum = 30 := by
    simp [toNumeric?]
    norm_num
  have hc1 : totalsCell "المبلغ" [Value.num 10, Value.num 20, Value.null] = XCell.num 30 := by
    unfold totalsCell
    rw [if_neg (by decide), if_neg (by decide), hsum, if_pos (by norm_num [ratAbs])]
  have hc2 : commaFmt 30 = "30.00" := by
    have hr : roundHalfEven ((30 : ℚ) * 100) = 3000 := by
      have h30 : ((30 : ℚ) * 100) = 3000 := by norm_num
      rw [h30]
      unfold roundHalfEven
      norm_num
    unfold commaFmt
    rw [hr]
    decide
  have hc3 : totalsCell "تاريخ الاستحقاق" [Value.num 10, Value.num 20] = XCell.str "" := by
    unfold totalsCell
    rw [if_pos (by decide)]
  have hc4 : totalsCell "الوصف" [Value.str "abc", Value.null] = XCell.str "" := by
    unfold totalsCell
    rw [if_neg (by decide), if_pos (by decide)]
  refine ⟨totals_headD_label f hne, ?_, hc1, hc2, hc3, hc4⟩
  · intro j hj
    rw [totals_getD f j hne hj]
    unfold totalsCell
    constructor
    · intro hexc
      rw [if_pos hexc]
    · intro hexc
      rw [if_neg (by rw [hexc]; exact Bool.false_ne_true)]
      constructor
      · intro hall
        rw [if_pos hall]
      · intro hall
        rw [if_neg (by rw [hall]; exact Bool.false_ne_true)]
        constructor
        · intro hlt
          rw [if_pos hlt]
        · intro hlt
          rw [if_neg hlt]

/-- Witness for C1: a two-column frame whose second column holds
`[10.0, 20.0, None]` totals to `30`. -/
theorem totals_row_spec_witness :
    (writeExcelTable (Frame.mk ["البيان", "المبلغ"]
        [[.str "x", .num 10], [.str "y", .num 20], [.str "z", .null]])).totals.getD 1
      XCell.blank = XCell.num 30 := by
  have hsum : ((((Frame.mk ["البيان", "المبلغ"]
      [[.str "x", .num 10], [.str "y", .num 20], [.str "z", .null]]).colVals 1).map
        toNumeric?).filterMap id).sum = 30 := by
    simp [Frame.colVals, toNumeric?]
    norm_num
  have h := (((((totals_row_spec (Frame.mk ["البيان", "المبلغ"]
      [[.str "x", .num 10], [.str "y", .num 20], [.str "z", .null]])
    (by decide)).2.1 0 (by decide)).2 (by decide)).2 (by decide)).1
    (by rw [hsum]; norm_num [ratAbs]))
  rw [h, hsum]

/-- Counterexample to C4 as stated: a zero-row table with a single column
gets a count row holding only the label — no row count `0` is written
anywhere in it, because the count value is only written into the second
column and there is none. -/
theorem zero_rows_single_column_count_missing :
    (writeExcelTable (Frame.mk ["أ"] [])).countRow = [XCell.str "عدد الصفوف"] ∧
    ∀ cell ∈ (writeExcelTable (Frame.mk ["أ"] [])).countRow, cell ≠ XCell.num 0 := by
  refine ⟨by decide, ?_⟩
  intro cell hc
  have : cell = XCell.str "عدد الصفوف" := by
    have h : (writeExcelTable (Frame.mk ["أ"] [])).countRow = [XCell.str "عدد الصفوف"] := by
      decide
    rw [h] at hc
    simpa using hc
  rw [this]
  decide

/-- C4 (amended): a zero-row table with a non-empty column list renders
without error in all three renderers: the spreadsheet holds the full
header row, a totals row starting with its label, and a count row
starting with its label — the row count `0` being written (into the
second column) whenever there are at least two columns, while a
single-column table gets only the count label; the PDF table holds
exactly the header row and no data rows; and the CSV text is exactly the
header record. -/
theorem empty_table_renderers (f : Frame) (hrows : f.rows = []) (hcols : f.cols ≠ []) :
    (writeExcelTable f).header = f.cols.map XCell.str ∧
    (writeExcelTable f).body = [] ∧
    (writeExcelTable f).totals.headD XCell.blank = XCell.str "المجموع" ∧
    (writeExcelTable f).countRow.headD XCell.blank = XCell.str "عدد الصفوف" ∧
    (2 ≤ f.cols.length →
      (writeExcelTable f).countRow.getD 1 XCell.blank = XCell.num 0) ∧
    pdfTableRows f = [f.cols.map pdfHeaderCell] ∧
    f.csvChars = encRow (f.cols.map String.data) := by
  have hempty : f.cols.isEmpty = false := by
    cases h : f.cols with
    | nil => exact absurd h hcols
    | cons a l => rfl
  refine ⟨rfl, by simp [writeExcelTable, hrows], totals_headD_label f hcols, ?_, ?_, ?_, ?_⟩
  · show (if f.cols.isEmpty then [] else
        XCell.str "عدد الصفوف" ::
          (if f.cols.length ≤ 1 then []
           else XCell.num (f.rows.length : ℚ) ::
             List.replicate (f.cols.length - 2) (XCell.str ""))).headD XCell.blank = _
    rw [if_neg (by rw [hempty]; exact Bool.false_ne_true)]
    rfl
  · intro h2
    show (if f.cols.isEmpty then [] else
        XCell.str "عدد الصفوف" ::
          (if f.cols.length ≤ 1 then []
           else XCell.num (f.rows.length : ℚ) ::
             List.replicate (f.cols.length - 2) (XCell.str ""))).getD 1 XCell.blank = _
    rw [if_neg (by rw [hempty]; exact Bool.false_ne_true),
      if_neg (by omega), List.getD_cons_succ]
    simp [hrows]
  · unfold pdfTableRows
    rw [hrows]
    rfl
  · unfold Frame.csvChars Frame.csvGrid
    rw [hrows]
    show encRow (f.cols.map String.data) ++ encRows [] = _
    simp [encRows]

/-- Witness for C4 (amended) on a zero-row, two-column table. -/
theorem empty_table_renderers_witness :
    (writeExcelTable (Frame.mk ["أ", "ب"] [])).countRow.getD 1 XCell.blank =
      XCell.num 0 :=
  ((empty_table_renderers (Frame.mk ["أ", "ب"] []) rfl (by decide)).2.2.2.2.1
    (by decide))

theorem sum_map_mul (l : List ℚ) (k : ℚ) :
    (l.map (fun w => w * k)).sum = l.sum * k := by
  induction l with
  | nil => simp
  | cons a t ih => simp [ih, add_mul]

theorem pdfAvailWidth_pos : 0 < pdfAvailWidth := by
  norm_num [pdfAvailWidth, landscapeA4Width]

/-- C6: each estimated PDF column width is the longest string length of
the column (header included) times the 6.4 char-width constant, capped at
the column-count tier's maximum — `(150, 8)` below 9 columns,
`(125, 7.5)` from 9, `(110, 7)` from 12 — and whenever the estimated
total exceeds the available page width every width is multiplied by the
single factor `avail / total`, making the scaled widths sum exactly to
the available width. -/
theorem pdf_column_widths (f : Frame) :
    (f.cols.length < 9 → pdfTierParams f.cols.length = (150, 8)) ∧
    (9 ≤ f.cols.length → f.cols.length < 12 →
      pdfTierParams f.cols.length = (125, 15 / 2)) ∧
    (12 ≤ f.cols.length → pdfTierParams f.cols.length = (110, 7)) ∧
    (∀ j, j < f.cols.length →
      (pdfEstWidths f (pdfTierParams f.cols.length).1).getD j 0 =
        min ((pdfMaxLen f j : ℚ) * (32 / 5)) (pdfTierParams f.cols.length).1 ∧
      (pdfEstWidths f (pdfTierParams f.cols.length).1).getD j 0 ≤
        (pdfTierParams f.cols.length).1) ∧
    (pdfAvailWidth < (pdfEstWidths f (pdfTierParams f.cols.length).1).sum →
      make_pdf_colWidths f =
        (pdfEstWidths f (pdfTierParams f.cols.length).1).map
          (fun w => w * (pdfAvailWidth /
            (pdfEstWidths f (pdfTierParams f.cols.length).1).sum)) ∧
      (make_pdf_colWidths f).sum = pdfAvailWidth) := by
  refine ⟨?_, ?_, ?_, ?_, ?_⟩
  · intro h
    unfold pdfTierParams
    rw [if_neg (by omega), if_neg (by omega)]
  · intro h1 h2
    unfold pdfTierParams
    rw [if_neg (by omega), if_pos h1]
  · intro h
    unfold pdfTierParams
    rw [if_pos h]
  · intro j hj
    constructor
    · show ((List.range f.cols.length).map
        (fun j => min ((pdfMaxLen f j : ℚ) * (32 / 5))
          (pdfTierParams f.cols.length).1)).getD j 0 = _
      rw [getD_range_map _ _ _ _ hj]
    · show ((List.range f.cols.length).map
        (fun j => min ((pdfMaxLen f j : ℚ) * (32 / 5))
          (pdfTierParams f.cols.length).1)).getD j 0 ≤ _
      rw [getD_range_map _ _ _ _ hj]
      exact min_le_right _ _
  · intro hlt
    have hmap : make_pdf_colWidths f =
        (pdfEstWidths f (pdfTierParams f.cols.length).1).map
          (fun w => w * (pdfAvailWidth /
            (pdfEstWidths f (pdfTierParams f.cols.length).1).sum)) := by
      unfold make_pdf_colWidths pdfScaleWidths
      show (if pdfAvailWidth < (pdfEstWidths f (pdfTierParams f.cols.length).1).sum then
          (pdfEstWidths f (pdfTierParams f.cols.length).1).map
            (fun w => w * (pdfAvailWidth /
              (pdfEstWidths f (pdfTierParams f.cols.length).1).sum))
        else pdfEstWidths f (pdfTierParams f.cols.length).1) = _
      rw [if_pos hlt]
    refine ⟨hmap, ?_⟩
    rw [hmap, sum_map_mul]
    have hne : (pdfEstWidths f (pdfTierParams f.cols.length).1).sum ≠ 0 :=
      ne_of_gt (lt_trans pdfAvailWidth_pos hlt)
    rw [mul_div_assoc']
    exact mul_div_cancel_left₀ _ hne

/-- Witness for C6: six 24-character column names estimate to the 150
cap each (total 900, beyond the available width), so the scaled widths
sum exactly to the available width. -/
theorem pdf_column_widths_witness :
    (make_pdf_colWidths (Frame.mk
      ["AAAAAAAAAAAAAAAAAAAAAAAA", "BBBBBBBBBBBBBBBBBBBBBBBB",
       "CCCCCCCCCCCCCCCCCCCCCCCC", "DDDDDDDDDDDDDDDDDDDDDDDD",
       "EEEEEEEEEEEEEEEEEEEEEEEE", "FFFFFFFFFFFFFFFFFFFFFFFF"] [])).sum =
      pdfAvailWidth := by
  have hw : min (((24 : ℕ) : ℚ) * (32 / 5)) 150 = 150 := by
    rw [min_eq_right]
    push_cast
    norm_num
  have hest : pdfEstWidths (Frame.mk
      ["AAAAAAAAAAAAAAAAAAAAAAAA", "BBBBBBBBBBBBBBBBBBBBBBBB",
       "CCCCCCCCCCCCCCCCCCCCCCCC", "DDDDDDDDDDDDDDDDDDDDDDDD",
       "EEEEEEEEEEEEEEEEEEEEEEEE", "FFFFFFFFFFFFFFFFFFFFFFFF"] [])
      (pdfTierParams 6).1 = [150, 150, 150, 150, 150, 150] := by
    show (List.range 6).map _ = _
    rw [show List.range 6 = [0, 1, 2, 3, 4, 5] from rfl]
    simp only [List.map_cons, List.map_nil]
    rw [show pdfMaxLen _ 0 = 24 from by decide, show pdfMaxLen _ 1 = 24 from by decide,
      show pdfMaxLen _ 2 = 24 from by decide, show pdfMaxLen _ 3 = 24 from by decide,
      show pdfMaxLen _ 4 = 24 from by decide, show pdfMaxLen _ 5 = 24 from by decide,
      show (pdfTierParams 6).1 = 150 from rfl, hw]
  have hlt : pdfAvailWidth < (pdfEstWidths (Frame.mk
      ["AAAAAAAAAAAAAAAAAAAAAAAA", "BBBBBBBBBBBBBBBBBBBBBBBB",
       "CCCCCCCCCCCCCCCCCCCCCCCC", "DDDDDDDDDDDDDDDDDDDDDDDD",
       "EEEEEEEEEEEEEEEEEEEEEEEE", "FFFFFFFFFFFFFFFFFFFFFFFF"] [])
      (pdfTierParams 6).1).sum := by
    rw [hest]
    norm_num [pdfAvailWidth, landscapeA4Width]
  exact ((pdf_column_widths (Frame.mk
      ["AAAAAAAAAAAAAAAAAAAAAAAA", "BBBBBBBBBBBBBBBBBBBBBBBB",
       "CCCCCCCCCCCCCCCCCCCCCCCC", "DDDDDDDDDDDDDDDDDDDDDDDD",
       "EEEEEEEEEEEEEEEEEEEEEEEE", "FFFFFFFFFFFFFFFFFFFFFFFF"] [])).2.2.2.2 hlt).2

theorem getLast?_dropWhile (p : Char → Bool) (c : Char) (hc : p c = false) :
    ∀ l : List Char, l.getLast? = some c → (l.dropWhile p).getLast? = some c := by
  intro l
  induction l with
  | nil => intro h; simp at h
  | cons a rest ih =>
    intro h
    cases rest with
    | nil =>
      have ha : a = c := by simpa using h
      subst ha
      simp [List.dropWhile, hc]
    | cons b rest2 =>
      rw [List.getLast?_cons_cons] at h
      by_cases hpa : p a = true
      · rw [List.dropWhile_cons_of_pos hpa]
        exact ih h
      · rw [List.dropWhile_cons_of_neg hpa, List.getLast?_cons_cons]
        exact h

theorem pyStripChars_getLast (l : List Char) (c : Char) (hc : isPySpace c = false)
    (h : l.getLast? = some c) : (pyStripChars l).getLast? = some c := by
  unfold pyStripChars
  have h1 : (l.dropWhile isPySpace).getLast? = some c :=
    getLast?_dropWhile isPySpace c hc l h
  have h2 : (l.dropWhile isPySpace).reverse.head? = some c := by
    rw [List.head?_reverse]
    exact h1
  cases hm : (l.dropWhile isPySpace).reverse with
  | nil => rw [hm] at h2; simp at h2
  | cons x xs =>
    rw [hm] at h2
    have hx : x = c := by simpa using h2
    subst hx
    rw [List.dropWhile_cons_of_neg (by rw [hc]; exact Bool.false_ne_true),
      List.getLast?_reverse]
    rfl

/-- C7: a string value that ends with a percent sign is returned
unchanged both by `format_numbers_for_display`'s per-cell formatter and by
`format_value` — it is treated as text and receives neither thousands
separators nor two-decimal formatting. -/
theorem percent_values_unchanged (s : String) (h : s.data.getLast? = some '%') :
    fmt_cell (.str s) = s ∧ format_value (.str s) = s := by
  have hp : endsPct (pyStrip s) = true := by
    unfold endsPct
    exact decide_eq_true (pyStripChars_getLast s.data '%' (by decide) h)
  constructor
  · unfold fmt_cell
    rw [if_neg (by simp [Value.isna])]
    simp only [pyStr]
    rw [if_pos hp]
  · show (if endsPct (pyStrip s) = true then s
      else match pyFloat? (stripCommas s) with
        | some fq => commaFmt fq
        | none => s) = s
    rw [if_pos hp]

/-- Witness for C7 at the value `"50%"`. -/
theorem percent_values_unchanged_witness : fmt_cell (.str "50%") = "50%" :=
  (percent_values_unchanged "50%" (by decide)).1

theorem digitChar_toNat (k : ℕ) (h : k < 10) : (digitChar k).toNat = 48 + k := by
  interval_cases k <;> decide

theorem digitChar_isDigit (k : ℕ) (h : k < 10) : (digitChar k).isDigit = true := by
  interval_cases k <;> decide

theorem digitChar_ne_comma (k : ℕ) (h : k < 10) : digitChar k ≠ ',' := by
  interval_cases k <;> decide

theorem digitChar_ne_dot (k : ℕ) (h : k < 10) : digitChar k ≠ '.' := by
  interval_cases k <;> decide

theorem digitChar_not_space (k : ℕ) (h : k < 10) : isPySpace (digitChar k) = false := by
  interval_cases k <;> decide

theorem natDigitsAux_mem (fuel : ℕ) :
    ∀ n, ∀ c ∈ natDigitsAux fuel n, ∃ k, k < 10 ∧ c = digitChar k := by
  induction fuel with
  | zero => intro n c hc; simp [natDigitsAux] at hc
  | succ f ih =>
    intro n c hc
    unfold natDigitsAux at hc
    by_cases h : n < 10
    · rw [if_pos h] at hc
      simp at hc
      exact ⟨n, h, hc⟩
    · rw [if_neg h] at hc
      rcases List.mem_append.mp hc with h1 | h2
      · exact ih _ c h1
      · simp at h2
        exact ⟨n % 10, Nat.mod_lt _ (by norm_num), h2⟩

theorem natDigitsAux_ne_nil (fuel n : ℕ) (h : 0 < fuel) : natDigitsAux fuel n ≠ [] := by
  cases fuel with
  | zero => omega
  | succ f =>
    unfold natDigitsAux
    by_cases hn : n < 10
    · rw [if_pos hn]; simp
    · rw [if_neg hn]; simp

theorem digitsToNat_append_one (l : List Char) (d : Char) :
    digitsToNat (l ++ [d]) = 10 * digitsToNat l + (d.toNat - 48) := by
  unfold digitsToNat
  rw [List.foldl_append]
  rfl

theorem digitsToNat_natDigitsAux :
    ∀ fuel n, n < 10 ^ fuel → digitsToNat (natDigitsAux fuel n) = n := by
  intro fuel
  induction fuel with
  | zero =>
    intro n h
    rw [pow_zero] at h
    have hn : n = 0 := by omega
    subst hn
    rfl
  | succ f ih =>
    intro n h
    unfold natDigitsAux
    by_cases hn : n < 10
    · rw [if_pos hn]
      show digitsToNat ([] ++ [digitChar n]) = n
      rw [digitsToNat_append_one, digitChar_toNat n hn]
      have h0 : digitsToNat ([] : List Char) = 0 := rfl
      omega
    · rw [if_neg hn]
      rw [digitsToNat_append_one, digitChar_toNat (n % 10) (Nat.mod_lt _ (by norm_num)),
        ih (n / 10) (by rw [pow_succ] at h; omega)]
      omega

theorem digitsToNat_natStr (n : ℕ) : digitsToNat (natStr n).data = n := by
  unfold natStr
  exact digitsToNat_natDigitsAux (n + 1) n
    (lt_of_lt_of_le (Nat.lt_pow_self (by norm_num) n)
      (Nat.pow_le_pow_right (by norm_num) (by omega)))

theorem natStr_all_digits (n : ℕ) : ∀ c ∈ (natStr n).data, c.isDigit = true := by
  intro c hc
  obtain ⟨k, hk, rfl⟩ := natDigitsAux_mem (n + 1) n c hc
  exact digitChar_isDigit k hk

theorem natStr_no_comma (n : ℕ) : ',' ∉ (natStr n).data := by
  intro hc
  obtain ⟨k, hk, he⟩ := natDigitsAux_mem (n + 1) n ',' hc
  exact digitChar_ne_comma k hk he.symm

theorem natStr_no_dot (n : ℕ) : '.' ∉ (natStr n).data := by
  intro hc
  obtain ⟨k, hk, he⟩ := natDigitsAux_mem (n + 1) n '.' hc
  exact digitChar_ne_dot k hk he.symm

theorem natStr_ne_nil (n : ℕ) : (natStr n).data ≠ [] :=
  natDigitsAux_ne_nil (n + 1) n (by omega)

theorem takeWhile_all_append (p : Char → Bool) (l1 : List Char)
    (h1 : ∀ c ∈ l1, p c = true) (x : Char) (hx : p x = false) (l2 : List Char) :
    (l1 ++ x :: l2).takeWhile p = l1 := by
  induction l1 with
  | nil =>
    rw [List.nil_append, List.takeWhile_cons_of_neg (by rw [hx]; exact Bool.false_ne_true)]
  | cons a t ih =>
    rw [List.cons_append, List.takeWhile_cons_of_pos (h1 a (List.mem_cons_self a t)),
      ih (fun c hc => h1 c (List.mem_cons_of_mem a hc))]

theorem dropWhile_all_append (p : Char → Bool) (l1 : List Char)
    (h1 : ∀ c ∈ l1, p c = true) (x : Char) (hx : p x = false) (l2 : List Char) :
    (l1 ++ x :: l2).dropWhile p = x :: l2 := by
  induction l1 with
  | nil =>
    rw [List.nil_append, List.dropWhile_cons_of_neg (by rw [hx]; exact Bool.false_ne_true)]
  | cons a t ih =>
    rw [List.cons_append, List.dropWhile_cons_of_pos (h1 a (List.mem_cons_self a t)),
      ih (fun c hc => h1 c (List.mem_cons_of_mem a hc))]

theorem span_all_append (p : Char → Bool) (l1 : List Char)
    (h1 : ∀ c ∈ l1, p c = true) (x : Char) (hx : p x = false) (l2 : List Char) :
    (l1 ++ x :: l2).span p = (l1, x :: l2) := by
  rw [List.span_eq_take_drop, takeWhile_all_append p l1 h1 x hx l2,
    dropWhile_all_append p l1 h1 x hx l2]

theorem span_all (p : Char → Bool) (l : List Char) (h : ∀ c ∈ l, p c = true) :
    l.span p = (l, []) := by
  rw [List.span_eq_take_drop, List.takeWhile_eq_self_iff.mpr h,
    List.dropWhile_eq_nil_iff.mpr (fun x hx => h x hx)]

theorem dropWhile_eq_self_of_all (p : Char → Bool) (l : List Char)
    (h : ∀ c ∈ l, p c = false) : l.dropWhile p = l := by
  cases l with
  | nil => rfl
  | cons a t =>
    rw [List.dropWhile_cons_of_neg
      (by rw [h a (List.mem_cons_self a t)]; exact Bool.false_ne_true)]

theorem pyStripChars_eq_self (l : List Char) (h : ∀ c ∈ l, isPySpace c = false) :
    pyStripChars l = l := by
  unfold pyStripChars
  rw [dropWhile_eq_self_of_all _ l h,
    dropWhile_eq_self_of_all _ l.reverse (fun c hc => h c (List.mem_reverse.mp hc)),
    List.reverse_reverse]

theorem stripCommas_eq_self (s : String) (h : ',' ∉ s.data) : stripCommas s = ⟨s.data⟩ := by
  unfold stripCommas
  congr 1
  refine List.filter_eq_self.mpr (fun c hc => ?_)
  have : ¬ c = ',' := fun he => h (he ▸ hc)
  simpa using this

theorem pyFloat?_of_plain (s : String) (c : Char) (rest : List Char)
    (hstrip : pyStripChars s.data = c :: rest) (hc1 : ¬ c = '+') (hc2 : ¬ c = '-') :
    pyFloat? s = parseUnsigned (c :: rest) := by
  unfold pyFloat?
  rw [hstrip]
  split
  · next heq => exact absurd (List.head_eq_of_cons_eq heq.symm).symm hc1
  · next heq => exact absurd (List.head_eq_of_cons_eq heq.symm).symm hc2
  · rfl

theorem pyFloat?_of_neg (s : String) (rest : List Char)
    (hstrip : pyStripChars s.data = '-' :: rest) :
    pyFloat? s = (parseUnsigned rest).map Neg.neg := by
  unfold pyFloat?
  rw [hstrip]
  rfl

theorem parseUnsigned_intDot (a : ℕ) :
    parseUnsigned ((natStr a).data ++ '.' :: ['0']) = some (a : ℚ) := by
  have hspan : ((natStr a).data ++ '.' :: ['0']).span Char.isDigit =
      ((natStr a).data, '.' :: ['0']) :=
    span_all_append Char.isDigit _ (natStr_all_digits a) '.' (by decide) _
  have hspan2 : (['0'] : List Char).span Char.isDigit = (['0'], []) :=
    span_all Char.isDigit ['0'] (by decide)
  unfold parseUnsigned
  rw [hspan]
  show (if '.' = '.' then
      match (['0'] : List Char).span Char.isDigit with
      | (fp, []) =>
        if (natStr a).data = [] ∧ fp = [] then none
        else some ((digitsToNat (natStr a).data : ℚ) +
          (digitsToNat fp : ℚ) / (10 : ℚ) ^ fp.length)
      | _ => none
    else none) = some (a : ℚ)
  rw [if_pos rfl, hspan2]
  show (if (natStr a).data = [] ∧ (['0'] : List Char) = [] then none
      else some ((digitsToNat (natStr a).data : ℚ) +
        (digitsToNat (['0'] : List Char) : ℚ) / (10 : ℚ) ^ (['0'] : List Char).length)) =
    some (a : ℚ)
  rw [if_neg (by simp), digitsToNat_natStr,
    show digitsToNat ['0'] = 0 from by decide]
  norm_num

/-- Parsing back the Python rendering of an integral float recovers it. -/
theorem pyFloat?_plain_roundtrip_int (q : ℚ) (hden : q.den = 1) :
    pyFloat? (pyStrip (stripCommas (pyStr (Value.num q)))) = some q := by
  have hdata : (pyStr (Value.num q)).data = (intStr q.num).data ++ '.' :: ['0'] := by
    show (floatRepr q).data = _
    unfold floatRepr
    rw [if_pos hden, String.data_append]
  have hnocomma : ',' ∉ (pyStr (Value.num q)).data := by
    rw [hdata]
    intro hc
    rcases List.mem_append.mp hc with h1 | h2
    · unfold intStr at h1
      rw [String.data_append] at h1
      rcases List.mem_append.mp h1 with h3 | h4
      · by_cases hneg : q.num < 0
        · rw [if_pos hneg] at h3; simp at h3
        · rw [if_neg hneg] at h3; simp at h3
      · exact natStr_no_comma _ h4
    · simp at h2
  have hnospace : ∀ c ∈ (pyStr (Value.num q)).data, isPySpace c = false := by
    rw [hdata]
    intro c hc
    rcases List.mem_append.mp hc with h1 | h2
    · unfold intStr at h1
      rw [String.data_append] at h1
      rcases List.mem_append.mp h1 with h3 | h4
      · by_cases hneg : q.num < 0
        · rw [if_pos hneg] at h3
          have h5 : c = '-' := by simpa using h3
          rw [h5]
          decide
        · rw [if_neg hneg] at h3
          simp at h3
      · obtain ⟨k, hk, rfl⟩ := natDigitsAux_mem _ _ c h4
        exact digitChar_not_space k hk
    · have h5 : c = '.' ∨ c = '0' := by simpa using h2
      rcases h5 with rfl | rfl
      · decide
      · decide
  have hstrip1 : stripCommas (pyStr (Value.num q)) = ⟨(pyStr (Value.num q)).data⟩ :=
    stripCommas_eq_self _ hnocomma
  have hstrip2 : (pyStrip (stripCommas (pyStr (Value.num q)))).data =
      (pyStr (Value.num q)).data := by
    rw [hstrip1]
    show pyStripChars (pyStr (Value.num q)).data = _
    exact pyStripChars_eq_self _ hnospace
  have hstrip3 : pyStripChars (pyStrip (stripCommas (pyStr (Value.num q)))).data =
      (pyStr (Value.num q)).data := by
    rw [hstrip2]
    exact pyStripChars_eq_self _ hnospace
  have hq : (q.num : ℚ) = q := by
    conv_rhs => rw [← Rat.num_div_den q]
    rw [hden]
    norm_num
  by_cases hneg : q.num < 0
  · have hint : (intStr q.num).data = '-' :: (natStr q.num.natAbs).data := by
      unfold intStr
      rw [String.data_append, if_pos hneg]
      rfl
    have hshape : pyStripChars (pyStrip (stripCommas (pyStr (Value.num q)))).data =
        '-' :: ((natStr q.num.natAbs).data ++ '.' :: ['0']) := by
      rw [hstrip3, hdata, hint]
      rfl
    rw [pyFloat?_of_neg _ _ hshape, parseUnsigned_intDot, Option.map_some']
    have hval : -(q.num.natAbs : ℚ) = q := by
      have h1 : (q.num.natAbs : ℤ) = -q.num :=
        Int.ofNat_natAbs_of_nonpos (le_of_lt hneg)
      have h2 : ((q.num.natAbs : ℕ) : ℚ) = ((q.num.natAbs : ℤ) : ℚ) :=
        (Int.cast_natCast _).symm
      calc -((q.num.natAbs : ℕ) : ℚ) = -(((q.num.natAbs : ℤ) : ℚ)) := by rw [h2]
        _ = -(((-q.num : ℤ) : ℚ)) := by rw [h1]
        _ = (q.num : ℚ) := by rw [Int.cast_neg]; ring
        _ = q := hq
    rw [show Neg.neg ((q.num.natAbs : ℕ) : ℚ) = -((q.num.natAbs : ℕ) : ℚ) from rfl, hval]
  · have hint : (intStr q.num).data = (natStr q.num.natAbs).data := by
      unfold intStr
      rw [String.data_append, if_neg hneg]
      rfl
    have hshape : pyStripChars (pyStrip (stripCommas (pyStr (Value.num q)))).data =
        (natStr q.num.natAbs).data ++ '.' :: ['0'] := by
      rw [hstrip3, hdata, hint]
    cases hnat : (natStr q.num.natAbs).data with
    | nil => exact absurd hnat (natStr_ne_nil _)
    | cons c0 t0 =>
      have hc0 : ∃ k, k < 10 ∧ c0 = digitChar k := by
        refine natDigitsAux_mem (q.num.natAbs + 1) q.num.natAbs c0 ?_
        rw [show natDigitsAux (q.num.natAbs + 1) q.num.natAbs = (natStr q.num.natAbs).data
          from rfl, hnat]
        exact List.mem_cons_self c0 t0
      obtain ⟨k, hk, rfl⟩ := hc0
      have hplus : ¬ digitChar k = '+' := by
        intro he
        have h6 := digitChar_toNat k hk
        rw [he] at h6
        simp at h6
        omega
      have hminus : ¬ digitChar k = '-' := by
        intro he
        have h6 := digitChar_toNat k hk
        rw [he] at h6
        simp at h6
        omega
      rw [hnat] at hshape
      rw [pyFloat?_of_plain _ _ _ (by rw [hshape]; rfl) hplus hminus]
      show parseUnsigned ((digitChar k :: t0) ++ '.' :: ['0']) = some q
      rw [← hnat, parseUnsigned_intDot]
      have hval : ((q.num.natAbs : ℕ) : ℚ) = q := by
        have h1 : (q.num.natAbs : ℤ) = q.num := Int.natAbs_of_nonneg (by omega)
        have h2 : ((q.num.natAbs : ℕ) : ℚ) = ((q.num.natAbs : ℤ) : ℚ) :=
          (Int.cast_natCast _).symm
        calc ((q.num.natAbs : ℕ) : ℚ) = (((q.num.natAbs : ℤ)) : ℚ) := h2
          _ = (q.num : ℚ) := by rw [h1]
          _ = q := hq
      rw [hval]

theorem fracDigits_mem (fuel : ℕ) :
    ∀ n d, 0 < d → n < d → ∀ c ∈ fracDigits fuel n d, ∃ k, k < 10 ∧ c = digitChar k := by
  induction fuel with
  | zero => intro n d _ _ c hc; simp [fracDigits] at hc
  | succ f ih =>
    intro n d hd hnd c hc
    unfold fracDigits at hc
    by_cases h0 : n = 0
    · rw [if_pos h0] at hc; simp at hc
    · rw [if_neg h0] at hc
      rcases List.mem_cons.mp hc with h1 | h2
      · refine ⟨n * 10 / d, ?_, h1⟩
        have : n * 10 < 10 * d := by omega
        exact Nat.div_lt_of_lt_mul (by omega)
      · exact ih (n * 10 % d) d hd (Nat.mod_lt _ hd) c h2

theorem intStr_no_comma (m : ℤ) : ',' ∉ (intStr m).data := by
  unfold intStr
  rw [String.data_append]
  intro hc
  rcases List.mem_append.mp hc with h1 | h2
  · by_cases hneg : m < 0
    · rw [if_pos hneg] at h1; simp at h1
    · rw [if_neg hneg] at h1; simp at h1
  · exact natStr_no_comma _ h2

theorem floatRepr_no_comma (q : ℚ) : ',' ∉ (floatRepr q).data := by
  unfold floatRepr
  by_cases hden : q.den = 1
  · rw [if_pos hden, String.data_append]
    intro hc
    rcases List.mem_append.mp hc with h1 | h2
    · exact intStr_no_comma _ h1
    · simp at h2
  · rw [if_neg hden]
    intro hc
    rw [String.data_append, String.data_append, String.data_append] at hc
    rcases List.mem_append.mp hc with h1 | h2
    · rcases List.mem_append.mp h1 with h3 | h4
      · rcases List.mem_append.mp h3 with h5 | h6
        · by_cases hneg : q < 0
          · rw [if_pos hneg] at h5; simp at h5
          · rw [if_neg hneg] at h5; simp at h5
        · exact natStr_no_comma _ h6
      · simp at h4
    · obtain ⟨k, hk, he⟩ := fracDigits_mem 40 (q.num.natAbs % q.den) q.den q.pos
        (Nat.mod_lt _ q.pos) ',' h2
      exact digitChar_ne_comma k hk he.symm

theorem mem_of_mem_dropWhile (p : Char → Bool) :
    ∀ (l : List Char) (c : Char), c ∈ l.dropWhile p → c ∈ l := by
  intro l
  induction l with
  | nil => intro c h; simp [List.dropWhile] at h
  | cons a t ih =>
    intro c h
    by_cases hpa : p a = true
    · rw [List.dropWhile_cons_of_pos hpa] at h
      exact List.mem_cons_of_mem a (ih c h)
    · rw [List.dropWhile_cons_of_neg hpa] at h
      exact h

theorem rstripChar_subset (t : Char) (s : String) :
    ∀ c ∈ (rstripChar t s).data, c ∈ s.data := by
  intro c hc
  unfold rstripChar at hc
  rw [List.mem_reverse] at hc
  exact List.mem_reverse.mp (mem_of_mem_dropWhile _ _ c hc)

theorem intStr_no_dot (m : ℤ) : '.' ∉ (intStr m).data := by
  unfold intStr
  rw [String.data_append]
  intro hc
  rcases List.mem_append.mp hc with h1 | h2
  · by_cases hneg : m < 0
    · rw [if_pos hneg] at h1; simp at h1
    · rw [if_neg hneg] at h1; simp at h1
  · exact natStr_no_dot _ h2

/-- C9: a column whose normalized name is in the caller's no-comma list,
contains `شيك`, or contains both `رقم` and `فاتورة`, is formatted entirely
through `_plain_number_no_commas`; under that formatter missing values
render empty, an integral float renders as its plain integer digits — no
decimal part and no thousands separator (`100.0` becomes `"100"`) — any
numerically-coercible value renders free of thousands separators, and a
value whose text fails numeric coercion passes through as its string
form. -/
theorem plain_no_comma_columns (c : String) (noComma : List String) (vals : List Value)
    (h : strContains (normalize_name c) "شيك" = true ∨
         (strContains (normalize_name c) "رقم" = true ∧
          strContains (normalize_name c) "فاتورة" = true) ∨
         normalize_name c ∈ noComma.map normalize_name) :
    formatColumn c noComma vals = vals.map plain_number_no_commas ∧
    plain_number_no_commas Value.null = "" ∧
    (∀ q : ℚ, q.den = 1 →
      plain_number_no_commas (.num q) = intStr q.num ∧
      ',' ∉ (intStr q.num).data ∧ '.' ∉ (intStr q.num).data) ∧
    plain_number_no_commas (.num 100) = "100" ∧
    (∀ s : String, pyFloat? (pyStrip (stripCommas s)) = none →
      plain_number_no_commas (.str s) = s) ∧
    (∀ v : Value, v.isna = false → ∀ q0 : ℚ,
      pyFloat? (pyStrip (stripCommas (pyStr v))) = some q0 →
      ',' ∉ (plain_number_no_commas v).data) := by
  have hint : ∀ q : ℚ, q.den = 1 → plain_number_no_commas (.num q) = intStr q.num := by
    intro q hden
    unfold plain_number_no_commas
    rw [if_neg (by simp [Value.isna])]
    show (match pyFloat? (pyStrip (stripCommas (pyStr (Value.num q)))) with
      | some q =>
        if q.den = 1 then intStr q.num
        else if '.' ∈ (floatRepr q).data then rstripChar '.' (rstripChar '0' (floatRepr q))
        else floatRepr q
      | none => pyStr (Value.num q)) = intStr q.num
    rw [pyFloat?_plain_roundtrip_int q hden]
    show (if q.den = 1 then intStr q.num
      else if '.' ∈ (floatRepr q).data then rstripChar '.' (rstripChar '0' (floatRepr q))
      else floatRepr q) = intStr q.num
    rw [if_pos hden]
  refine ⟨?_, rfl, ?_, ?_, ?_, ?_⟩
  · have hfp : force_plain c noComma = true := by
      unfold force_plain
      rcases h with h1 | ⟨h1, h2⟩ | h1
      · rw [h1, Bool.or_true, Bool.true_or]
      · rw [h1, h2, Bool.and_self, Bool.or_true]
      · have hA : (noComma.map normalize_name).contains (normalize_name c) = true := by
          show (noComma.map normalize_name).elem (normalize_name c) = true
          exact List.elem_eq_true_of_mem h1
        rw [hA, Bool.true_or, Bool.true_or]
    unfold formatColumn
    rw [if_pos hfp]
  · intro q hden
    exact ⟨hint q hden, intStr_no_comma q.num, intStr_no_dot q.num⟩
  · have hden : (100 : ℚ).den = 1 := rfl
    rw [hint 100 hden]
    decide
  · intro s hnone
    unfold plain_number_no_commas
    rw [if_neg (by simp [Value.isna])]
    show (match pyFloat? (pyStrip (stripCommas (pyStr (Value.str s)))) with
      | some q =>
        if q.den = 1 then intStr q.num
        else if '.' ∈ (floatRepr q).data then rstripChar '.' (rstripChar '0' (floatRepr q))
        else floatRepr q
      | none => pyStr (Value.str s)) = s
    rw [show pyStr (Value.str s) = s from rfl, hnone]
  · intro v hv q0 hq0
    unfold plain_number_no_commas
    rw [if_neg (by rw [hv]; exact Bool.false_ne_true)]
    show ',' ∉ (match pyFloat? (pyStrip (stripCommas (pyStr v))) with
      | some q =>
        if q.den = 1 then intStr q.num
        else if '.' ∈ (floatRepr q).data then rstripChar '.' (rstripChar '0' (floatRepr q))
        else floatRepr q
      | none => pyStr v).data
    rw [hq0]
    show ',' ∉ (if q0.den = 1 then intStr q0.num
      else if '.' ∈ (floatRepr q0).data then rstripChar '.' (rstripChar '0' (floatRepr q0))
      else floatRepr q0).data
    split_ifs with h1 h2
    · exact intStr_no_comma q0.num
    · intro hc
      exact floatRepr_no_comma q0
        (rstripChar_subset '0' (floatRepr q0) ','
          (rstripChar_subset '.' (rstripChar '0' (floatRepr q0)) ',' hc))
    · exact floatRepr_no_comma q0

/-- Witness for C9 on a `شيك`-named column holding `[100.0, "7%x", None]`. -/
theorem plain_no_comma_columns_witness :
    formatColumn "رقم الشيك" [] [.num 100, .str "7%x", .null] =
      [.num 100, .str "7%x", Value.null].map plain_number_no_commas ∧
    plain_number_no_commas (.num 100) = "100" :=
  ⟨(plain_no_comma_columns "رقم الشيك" [] [.num 100, .str "7%x", .null]
      (Or.inl (by decide))).1,
   (plain_no_comma_columns "رقم الشيك" [] [.num 100, .str "7%x", .null]
      (Or.inl (by decide))).2.2.2.1⟩

end HGAD
